import Mathlib

/-!
Verification of the figure-to-table extraction engine (the Plotly trace
normalization module of this repository).  The definitions below are a
shallow embedding of the module's functions: JavaScript values flowing
through the extractor are modelled by `Value`, JS `number` by `Rat`
(finite doubles are rationals; the distinguished values `NaN` and
`±Infinity` get their own constructors), thrown exceptions by
`Except String`, and the platform's `atob` base64 decoder by an
executable model of forgiving-base64.  Each embedded definition carries
a comment pointing at the source function it translates.
-/

/-- A JavaScript value as it occurs in figure specifications and table
cells.  `str/num/bool/vnull/undefined/date` are the module's `Primitive`
type; `nan`/`inf` are the non-finite numbers; `arr` is a JS array and
`nd` an ndarray-like object `{dtype, bdata, shape?}`. -/
inductive Value where
  | str : String → Value
  | num : Rat → Value
  | bool : Bool → Value
  | vnull : Value
  | undefined : Value
  | date : Int → Value
  | nan : Value
  | inf : Bool → Value
  | arr : List Value → Value
  | nd : String → String → Option Value → Value

mutual

/-- Boolean structural equality on `Value` (nested inductive, so
`DecidableEq` is derived by hand). -/
def vbeq : Value → Value → Bool
  | .str a, .str b => a == b
  | .num a, .num b => a == b
  | .bool a, .bool b => a == b
  | .vnull, .vnull => true
  | .undefined, .undefined => true
  | .date a, .date b => a == b
  | .nan, .nan => true
  | .inf a, .inf b => a == b
  | .arr a, .arr b => vlbeq a b
  | .nd d bd s, .nd d2 bd2 s2 => d == d2 && bd == bd2 && vobeq s s2
  | _, _ => false

/-- `vbeq` lifted to lists. -/
def vlbeq : List Value → List Value → Bool
  | [], [] => true
  | a :: as, b :: bs => vbeq a b && vlbeq as bs
  | _, _ => false

/-- `vbeq` lifted to options. -/
def vobeq : Option Value → Option Value → Bool
  | none, none => true
  | some a, some b => vbeq a b
  | _, _ => false

end

mutual

theorem vbeq_iff : ∀ a b, vbeq a b = true ↔ a = b
  | a, b => by
    cases a <;> cases b <;>
      simp [vbeq, vlbeq_iff, vobeq_iff, beq_iff_eq, and_assoc]

theorem vlbeq_iff : ∀ a b, vlbeq a b = true ↔ a = b
  | a, b => by
    cases a <;> cases b <;> simp [vlbeq, vbeq_iff, vlbeq_iff]

theorem vobeq_iff : ∀ a b, vobeq a b = true ↔ a = b
  | a, b => by
    cases a <;> cases b <;> simp [vobeq, vbeq_iff]

end

instance : DecidableEq Value := fun a b => decidable_of_iff _ (vbeq_iff a b)

/-- `interface DataColumn { name: string; values: Primitive[] }`. -/
structure DataColumn where
  name : String
  values : List Value
deriving DecidableEq

/-- `interface DataTable { title?; columns; meta? }`.  All producers in
the module pass a string title, and `meta` is an open record modelled as
an association list. -/
structure DataTable where
  title : String
  columns : List DataColumn
  meta : List (String × Value)
deriving DecidableEq

/-- `PlotlyTrace`: the trace fields the module reads.  Absent fields are
`Value.undefined` (resp. `none` for the string-typed ones).  `headerValues` /
`cellsValues` model `t.header?.values` / `t.cells?.values` when those are
arrays; `colorbarTitle` models `t.colorbar?.title?.text`. -/
structure Trace where
  type : Option String := none
  name : Option String := none
  x : Value := .undefined
  y : Value := .undefined
  z : Value := .undefined
  labels : Value := .undefined
  values : Value := .undefined
  locations : Value := .undefined
  open_ : Value := .undefined
  high : Value := .undefined
  low : Value := .undefined
  close : Value := .undefined
  measure : Value := .undefined
  parents : Value := .undefined
  headerValues : Option (List Value) := none
  cellsValues : Option (List Value) := none
  coloraxis : Option String := none
  colorbarTitle : Option String := none
  locationmode : Value := .undefined
  geo : Value := .undefined
deriving DecidableEq

/-- The parts of `fig.layout` the module reads: the x/y axis titles
(already resolved from `title` or `title.text`, see `getXAxisTitle`) and
the per-coloraxis colorbar titles `layout[axisKey].colorbar.title.text`. -/
structure Layout where
  xaxisTitle : Option String := none
  yaxisTitle : Option String := none
  colorbarTitles : List (String × String) := []
deriving DecidableEq

/-- `PlotlyFigureLike` (the `frames` field is never read). -/
structure Figure where
  data : List Trace := []
  layout : Layout := {}
deriving DecidableEq

/-- `ExtractOptions`; `none` models an absent (undefined) option, which
the destructuring defaults in `extractTables` replace. -/
structure ExtractOptions where
  mergeCartesian : Option Bool := none
  unnamedYPrefix : Option String := none
  coerceDates : Option Bool := none
  xColumnName : Option String := none


instance {e a : Type} [DecidableEq e] [DecidableEq a] : DecidableEq (Except e a)
  | .error x, .error y => decidable_of_iff (x = y) (by simp)
  | .ok x, .ok y => decidable_of_iff (x = y) (by simp)
  | .error _, .ok _ => isFalse (by simp)
  | .ok _, .error _ => isFalse (by simp)

/-- ASCII lowercase of one character. -/
def lowerChar (c : Char) : Char :=
  if 'A' ≤ c ∧ c ≤ 'Z' then Char.ofNat (c.toNat + 32) else c

/-- `String.prototype.toLowerCase` (ASCII; the dispatch keys are ASCII). -/
def lowerCase (s : String) : String := String.mk (s.toList.map lowerChar)

/-- Split a character list at every separator (keeping empty pieces,
like `split`). -/
def splitList (p : Char → Bool) : List Char → List (List Char)
  | [] => [[]]
  | c :: rest =>
    let r := splitList p rest
    if p c then [] :: r
    else
      match r with
      | g :: gs => (c :: g) :: gs
      | [] => [[c]]

/-- String splitting on a character predicate. -/
def splitStr (p : Char → Bool) (s : String) : List String :=
  (splitList p s.toList).map String.mk

/-- Decimal digit parsing (kernel-reducible `String.toNat?`). -/
def decNat? (s : String) : Option Nat :=
  match s.toList with
  | [] => none
  | cs =>
    (cs.mapM fun c =>
        if '0' ≤ c ∧ c ≤ '9' then some (c.toNat - 48) else none).map
      (·.foldl (fun a d => a * 10 + d) 0)

/- ---------------- JS semantics helpers ---------------- -/

/-- JS `a || b` for an optional string `a`: an absent or empty string is
falsy and selects `b`. -/
def jsOr (v : Option String) (d : String) : String :=
  match v with
  | some s => if s = "" then d else s
  | none => d

/-- Proposition: an optional string is JS-falsy (absent or empty). -/
def JsFalsyS (v : Option String) : Prop := v = none ∨ v = some ""

/-- JS `v == null` (loose equality: true exactly for null and undefined). -/
def isNullish : Value → Bool
  | .vnull => true
  | .undefined => true
  | _ => false

/-- JS `a ?? b` on values. -/
def nullish (v : Value) (d : Value) : Value :=
  if isNullish v then d else v

/-- JS indexing `l[i]`: out of range gives `undefined`. -/
def getAt (l : List Value) (i : Nat) : Value := l.getD i .undefined

/-- JS number-to-string.  Integral values render exactly as in JS
(`String(3) = "3"`, `String(-2) = "-2"`); for non-integral rationals the
rendering `num/den` is an injective stand-in for JS's shortest
round-trip decimal (also injective). -/
def ratStr (q : Rat) : String :=
  if q.den = 1 then toString q.num else toString q.num ++ "/" ++ toString q.den

/-- `Date.prototype.toISOString`, modelled as an injective rendering of
the epoch-millisecond value (the real ISO-8601 string is in bijection
with it, which is all the merge key relies on). -/
def isoStr (ms : Int) : String := "ISO:" ++ toString ms

/-- JS `String(v)`.  Arrays and objects get injective-enough stand-ins
("Array.prototype.toString" joins elements; `Date` gets a locale string);
no claim depends on their exact text. -/
def jsString : Value → String
  | .str s => s
  | .num q => ratStr q
  | .bool b => if b then "true" else "false"
  | .vnull => "null"
  | .undefined => "undefined"
  | .nan => "NaN"
  | .inf neg => if neg then "-Infinity" else "Infinity"
  | .date ms => "DateString:" ++ toString ms
  | .arr _ => "ArrayString"
  | .nd _ _ _ => "[object Object]"

/- ---------------- base64 (the platform atob / btoa pair) ---------------- -/

/-- The base64 alphabet. -/
def b64chars : List Char :=
  "ABCDEFGHIJKLMNOPQRSTUVWXYZabcdefghijklmnopqrstuvwxyz0123456789+/".toList

/-- Value of one base64 character, `none` for characters outside the
alphabet. -/
def b64val (c : Char) : Option Nat :=
  let i := b64chars.indexOf c
  if i < 64 then some i else none

/-- Character for one sextet. -/
def b64char (n : Nat) : Char := b64chars.getD n 'A'

/-- Bytes to sextets, 3 bytes per 4 sextets, partial groups encoded
short (btoa's bit layout). -/
def encodeGroups : List Nat → List Nat
  | [] => []
  | [a] => [a / 4, a % 4 * 16]
  | [a, b] => [a / 4, a % 4 * 16 + b / 16, b % 16 * 4]
  | a :: b :: c :: rest =>
      a / 4 :: (a % 4 * 16 + b / 16) :: (b % 16 * 4 + c / 64) :: c % 64 ::
        encodeGroups rest

/-- `btoa`: canonical base64 encoding of a byte list (with `=` padding). -/
def bytesToBase64 (bytes : List Nat) : String :=
  let pad : Nat := if bytes.length % 3 = 0 then 0 else if bytes.length % 3 = 1 then 2 else 1
  String.mk ((encodeGroups bytes).map b64char ++ List.replicate pad '=')

/-- Sextets back to bytes, 4 sextets per 3 bytes, trailing groups of 2
or 3 sextets giving 1 or 2 bytes (atob's bit layout). -/
def decodeSextets : List Nat → List Nat
  | w :: x :: y :: z :: rest =>
      (w * 4 + x / 16) :: (x % 16 * 16 + y / 4) :: (y % 4 * 64 + z) :: decodeSextets rest
  | [w, x] => [w * 4 + x / 16]
  | [w, x, y] => [w * 4 + x / 16, x % 16 * 16 + y / 4]
  | _ => []

/-- The padding-strip step of forgiving-base64: when the length is a
multiple of 4, remove up to two trailing `=`. -/
def stripPad (cs : List Char) : List Char :=
  if cs.length % 4 = 0 then
    if cs.getLast? = some '=' then
      let cs1 := cs.dropLast
      if cs1.getLast? = some '=' then cs1.dropLast else cs1
    else cs
  else cs

/-- All-or-nothing character valuation (`Option`-valued `mapM`). -/
def mapOpt (f : Char → Option Nat) : List Char → Option (List Nat)
  | [] => some []
  | c :: rest =>
    match f c, mapOpt f rest with
    | some v, some vs => some (v :: vs)
    | _, _ => none

/-- Models the platform `atob` used by `base64ToBytes` (WHATWG
forgiving-base64 without the whitespace-stripping step): strip up to two
trailing `=` when the length is a multiple of 4, reject length ≡ 1 mod 4
and characters outside the alphabet, then decode. -/
def base64ToBytes (s : String) : Except String (List Nat) :=
  let cs := stripPad s.toList
  if cs.length % 4 = 1 then .error "InvalidCharacterError"
  else
    match mapOpt b64val cs with
    | some vals => .ok (decodeSextets vals)
    | none => .error "InvalidCharacterError"

/- ---------------- ndarray decoding (decodeNdarray) ---------------- -/

/-- Little-endian bytes of `w`, `k` bytes wide. -/
def leBytesN : Nat → Nat → List Nat
  | 0, _ => []
  | k + 1, w => w % 256 :: leBytesN k (w / 256)

/-- Recombine little-endian bytes into a natural number. -/
def leNat (bytes : List Nat) : Nat := bytes.foldr (fun b acc => b + 256 * acc) 0

/-- Two's-complement reading of a `bits`-wide word (typed-array
`Int8/16/32Array` semantics). -/
def toSigned (bits : Nat) (w : Nat) : Int :=
  if w < 2 ^ (bits - 1) then (w : Int) else (w : Int) - 2 ^ bits

/-- Fuel-driven worker for `chunksExact` (structural recursion keeps it
kernel-reducible). -/
def chunksGo (k : Nat) : Nat → List Nat → List (List Nat)
  | 0, _ => []
  | fuel + 1, l =>
    if k = 0 ∨ l.length < k then [] else l.take k :: chunksGo k fuel (l.drop k)

/-- Split into consecutive groups of `k`, dropping a short trailer —
exactly how a typed-array view of `Math.floor(byteLength / k)` elements
walks the buffer. -/
def chunksExact (k : Nat) (l : List Nat) : List (List Nat) := chunksGo k l.length l

/-- The IEEE-754 double denoted by a 64-bit pattern: finite values are
exact rationals, the exponent-all-ones patterns give `±Infinity`/`NaN`
(`Float64Array` element semantics; `-0` collapses to `0`). -/
def f64prim (w : Nat) : Value :=
  let s : Nat := w / 2 ^ 63
  let e : Nat := w / 2 ^ 52 % 2 ^ 11
  let m : Nat := w % 2 ^ 52
  if e = 2047 then (if m = 0 then .inf (s = 1) else .nan)
  else
    let mag : Rat :=
      if e = 0 then (m : Rat) / 2 ^ 1074
      else if 1075 ≤ e then (((2 ^ 52 + m) * 2 ^ (e - 1075) : Nat) : Rat)
      else ((2 ^ 52 + m : Nat) : Rat) / 2 ^ (1075 - e)
    .num (if s = 1 then -mag else mag)

/-- The IEEE-754 single denoted by a 32-bit pattern (`Float32Array`
element semantics). -/
def f32prim (w : Nat) : Value :=
  let s : Nat := w / 2 ^ 31
  let e : Nat := w / 2 ^ 23 % 2 ^ 8
  let m : Nat := w % 2 ^ 23
  if e = 255 then (if m = 0 then .inf (s = 1) else .nan)
  else
    let mag : Rat :=
      if e = 0 then (m : Rat) / 2 ^ 149
      else if 150 ≤ e then (((2 ^ 23 + m) * 2 ^ (e - 150) : Nat) : Rat)
      else ((2 ^ 23 + m : Nat) : Rat) / 2 ^ (150 - e)
    .num (if s = 1 then -mag else mag)

/-- The typed-array reinterpretation step of `decodeNdarray` (lines
36–43): one case per supported dtype tag, `none` for the `default:`
branch.  Multi-byte views cover `Math.floor(byteLength / width)`
elements, little-endian. -/
def decodeBytes (dtype : String) (bytes : List Nat) : Option (List Value) :=
  match dtype with
  | "i1" => some (bytes.map fun b => .num ((toSigned 8 b : Int) : Rat))
  | "u1" => some (bytes.map fun b => .num (Nat.cast b))
  | "i2" => some ((chunksExact 2 bytes).map fun g => .num ((toSigned 16 (leNat g) : Int) : Rat))
  | "u2" => some ((chunksExact 2 bytes).map fun g => .num ((leNat g : Nat) : Rat))
  | "i4" => some ((chunksExact 4 bytes).map fun g => .num ((toSigned 32 (leNat g) : Int) : Rat))
  | "u4" => some ((chunksExact 4 bytes).map fun g => .num ((leNat g : Nat) : Rat))
  | "f4" => some ((chunksExact 4 bytes).map fun g => f32prim (leNat g))
  | "f8" => some ((chunksExact 8 bytes).map fun g => f64prim (leNat g))
  | _ => none

/-- `decodeNdarray` (lines 33–46): decode the base64 payload, then
reinterpret per dtype; an unrecognized dtype throws
`Unsupported ndarray dtype: <dtype>` (the spec's UnsupportedDtypeError). -/
def decodeNdarray (dtype bdata : String) : Except String (List Value) := do
  let bytes ← base64ToBytes bdata
  match decodeBytes dtype bytes with
  | some vs => pure vs
  | none => .error ("Unsupported ndarray dtype: " ++ dtype)

/- ---------------- shape helpers ---------------- -/

/-- `parseShape` (lines 48–56).  A falsy hint gives `null`; a numeric
array is taken as-is; a delimited string is split and parsed.  JS would
accept non-integer or negative numerics here only to crash later in
`reshape2D`'s `Array` constructor, and `Number()` accepts some exotic
token spellings; those corners are folded into the unparseable case
(plain decimal naturals parse). -/
def parseShape (shape : Option Value) : Option (List Nat) :=
  match shape with
  | none => none
  | some v =>
    if isNullish v ∨ v = .bool false ∨ v = .num 0 ∨ v = .str "" ∨ v = .nan then none
    else
      match v with
      | .arr vs =>
          vs.mapM fun e => match e with
            | .num q => if q.den = 1 ∧ 0 ≤ q.num then some q.num.toNat else none
            | _ => none
      | .str s =>
          ((splitStr (fun c => c = ',' || c.isWhitespace) s).filter (· ≠ "")).mapM
            decNat?
      | _ => none

/-- `reshape2D` (lines 58–62): row-major `rows × cols` slices of `flat`
(`slice` clamps out-of-range indices, as `drop`/`take` do). -/
def reshape2D (flat : List Value) (rows cols : Nat) : List (List Value) :=
  (List.range rows).map fun r => ((flat.drop (r * cols)).take cols)

/-- `transpose` (lines 64–70).  `c` is the first row's length; reading
`m[i][j]` past the end of a short row yields `undefined`, exactly as in
JS. -/
def transpose (m : List (List Value)) : List (List Value) :=
  match m with
  | [] => []
  | m0 :: _ =>
    (List.range m0.length).map fun j =>
      (List.range m.length).map fun i => getAt (m.getD i []) j

/- ---------------- tiny utils ---------------- -/

/-- `toArray` (lines 74–82): null/undefined give `[]`, an ndarray-like
object is decoded (and may throw), an array is copied, anything else is
wrapped.  (The array-like-object branch needs JS objects with a numeric
`length` field, which the value model does not contain.) -/
def toArray (v : Value) : Except String (List Value) :=
  match v with
  | .vnull => .ok []
  | .undefined => .ok []
  | .nd dtype bdata _ => decodeNdarray dtype bdata
  | .arr vs => .ok vs
  | v => .ok [v]

/-- `getXAxisTitle` (lines 84–87); the `string | {text}` unpacking is
already folded into `Layout.xaxisTitle`. -/
def getXAxisTitle (fig : Figure) : Option String := fig.layout.xaxisTitle

/-- `getYAxisTitle` (lines 88–91). -/
def getYAxisTitle (fig : Figure) : Option String := fig.layout.yaxisTitle

/-- `colorTitleFromFig` (lines 92–97): a truthy per-trace colorbar title
wins; else a truthy `coloraxis` key selects
`layout[axisKey].colorbar.title.text`. -/
def colorTitleFromFig (fig : Figure) (t : Trace) : Option String :=
  let fromAxis : Option String :=
    match t.coloraxis with
    | some a => if a = "" then none else (fig.layout.colorbarTitles.lookup a)
    | none => none
  match t.colorbarTitle with
  | some s => if s = "" then fromAxis else some s
  | none => fromAxis

/- ---------------- tables ---------------- -/

/-- Maximum of the column value-counts, `Math.max(0, ...lengths)`. -/
def maxColLen (columns : List DataColumn) : Nat :=
  columns.foldr (fun c m => max c.values.length m) 0

/-- `padColumnsToSameLength` (lines 101–109): pad every column with
`null` up to the maximum length. -/
def padColumnsToSameLength (columns : List DataColumn) : List DataColumn :=
  let n := maxColLen columns
  columns.map fun c =>
    if c.values.length = n then c
    else { c with values := c.values ++ List.replicate (n - c.values.length) .vnull }

/-- `makeTable` (lines 111–113). -/
def makeTable (title : String) (columns : List DataColumn)
    (meta : List (String × Value)) : DataTable :=
  { title := title, columns := padColumnsToSameLength columns, meta := meta }

/- ---------------- trace converters ---------------- -/

/-- `fromTableTrace` (lines 125–134). -/
def fromTableTrace (t : Trace) : Except String DataTable := do
  let headers ←
    match t.headerValues with
    | some (h0 :: _) => toArray h0
    | _ => .ok ([] : List Value)
  let cellsCols ←
    match t.cellsValues with
    | some cols => cols.mapM toArray
    | none => .ok ([] : List (List Value))
  let columns : List DataColumn :=
    if cellsCols ≠ [] then
      cellsCols.enum.map fun p =>
        ⟨jsString (nullish (getAt headers p.1) (.str ("col_" ++ toString (p.1 + 1)))), p.2⟩
    else if headers ≠ [] then
      headers.enum.map fun p =>
        ⟨jsString (nullish p.2 (.str ("col_" ++ toString (p.1 + 1)))), []⟩
    else [⟨"col_1", []⟩]
  pure (makeTable (jsOr t.name "table") columns [("traceType", .str "table")])

/-- The matrix-building step of `fromHeatmapLike` for a binary-encoded
`z` (lines 144–163): resolve a shape from the explicit hint, else the
axis-label lengths, else a square root, reshape row-major and transpose
when the shape matches the axis labels only transposed; with no usable
shape fall back to a single row.  `Math.sqrt`'s integrality test is
exact for the sizes at hand (`Nat.sqrt`). -/
def resolveZ (flat : List Value) (shape : Option Value) (xLen yLen : Nat) :
    List (List Value) :=
  let shp0 := parseShape shape
  let shp :=
    match shp0 with
    | none =>
      if 0 < xLen ∧ 0 < yLen then some [yLen, xLen]
      else if Nat.sqrt flat.length * Nat.sqrt flat.length = flat.length then
        some [Nat.sqrt flat.length, Nat.sqrt flat.length]
      else none
    | s => s
  match shp with
  | some (s0 :: s1 :: _) =>
    let Z := reshape2D flat s0 s1
    if 0 < xLen ∧ 0 < yLen ∧ (s0 ≠ yLen ∨ s1 ≠ xLen) then
      if s1 = yLen ∧ s0 = xLen then transpose Z else Z
    else Z
  | _ => [flat]

/-- `fromHeatmapLike` (lines 137–197): build the `Z` matrix (binary,
nested-array, flat-array and scalar cases), clip/pad it to the
label-derived extent, then emit one y column plus one column per x
label. -/
def fromHeatmapLike (fig : Figure) (t : Trace) : Except String DataTable := do
  let xVals ← toArray t.x
  let yVals ← toArray t.y
  let Z ←
    match t.z with
    | .nd dtype bdata shp => do
        let flat ← decodeNdarray dtype bdata
        pure (resolveZ flat shp xVals.length yVals.length)
    | .arr vs =>
      match vs with
      | (.arr r0) :: rest => ((Value.arr r0) :: rest).mapM toArray
      | _ =>
        pure
          (if 0 < xVals.length ∧ 0 < yVals.length ∧
              vs.length = xVals.length * yVals.length then
            reshape2D vs yVals.length xVals.length
          else [vs])
    | z => do
        let row ← toArray z
        pure [row]
  let rows := if yVals.length ≠ 0 then yVals.length else Z.length
  let cols := if xVals.length ≠ 0 then xVals.length else (Z.headD []).length
  let Z := (Z.take rows).map (·.take cols)
  let Z := Z ++ List.replicate (rows - Z.length) (List.replicate cols Value.vnull)
  let Z := Z.map fun r =>
    if r.length < cols then r ++ List.replicate (cols - r.length) Value.vnull else r
  let yTitle := jsOr (getYAxisTitle fig) "y"
  let yColVals :=
    if yVals.length ≠ 0 then yVals else (List.range rows).map fun i => Value.num i
  let columns : List DataColumn :=
    ⟨yTitle, yColVals⟩ ::
      (List.range cols).map fun c =>
        ⟨jsString (nullish (getAt xVals c) (.str ("col_" ++ toString c))),
         Z.map fun row => nullish (getAt row c) .vnull⟩
  let valueTitle := jsOr (colorTitleFromFig fig t) "z"
  pure (makeTable (jsOr t.name (t.type.getD "heatmap")) columns
    [("traceType", .str (t.type.getD "heatmap")), ("valueTitle", .str valueTitle)])

/-- `fromPieLike` (lines 199–206). -/
def fromPieLike (t : Trace) : Except String DataTable := do
  let labels ← toArray t.labels
  let values ← toArray t.values
  let parents ← toArray t.parents
  let cols : List DataColumn :=
    [⟨"label", labels⟩, ⟨"value", values⟩] ++
      (if parents ≠ [] then [⟨"parent", parents⟩] else [])
  pure (makeTable (jsOr t.name (t.type.getD "pie")) cols
    [("traceType", .str (t.type.getD "pie"))])

/-- `fromOhlcLike` (lines 208–216). -/
def fromOhlcLike (t : Trace) : Except String DataTable := do
  let xs ← toArray t.x
  let os ← toArray t.open_
  let hs ← toArray t.high
  let ls ← toArray t.low
  let cs ← toArray t.close
  pure (makeTable (jsOr t.name (t.type.getD "ohlc"))
    [⟨"x", xs⟩, ⟨"open", os⟩, ⟨"high", hs⟩, ⟨"low", ls⟩, ⟨"close", cs⟩]
    [("traceType", .str (t.type.getD "ohlc"))])

/-- `fromWaterfall` (lines 218–226). -/
def fromWaterfall (t : Trace) : Except String DataTable := do
  let xs ← toArray t.x
  let ys ← toArray t.y
  let ms ← toArray t.measure
  let cols : List DataColumn :=
    [⟨"x", xs⟩, ⟨"y", ys⟩] ++ (if ms ≠ [] then [⟨"measure", ms⟩] else [])
  pure (makeTable (jsOr t.name "waterfall") cols [("traceType", .str "waterfall")])

/-- `fromChoropleth` (lines 228–234). -/
def fromChoropleth (fig : Figure) (t : Trace) : Except String DataTable := do
  let locs ← toArray t.locations
  let zs ← toArray t.z
  let valueCol := jsOr (colorTitleFromFig fig t) "value"
  pure (makeTable (jsOr t.name "choropleth")
    [⟨"location", locs⟩, ⟨valueCol, zs⟩]
    [("traceType", .str "choropleth"), ("locationmode", t.locationmode),
     ("geo", t.geo)])

/-- `fromBoxOrViolin` (lines 236–246): with no x data each y value gets
the trace name (or `"group"`) as its category. -/
def fromBoxOrViolin (fig : Figure) (t : Trace) : Except String DataTable := do
  let xs ← toArray t.x
  let ys ← toArray t.y
  let xVals :=
    if xs ≠ [] then xs else List.replicate ys.length (Value.str (t.name.getD "group"))
  let xTitle := jsOr (getXAxisTitle fig) "x"
  let yTitle := jsOr (getYAxisTitle fig) "y"
  pure (makeTable (jsOr t.name (t.type.getD "box"))
    [⟨xTitle, xVals⟩, ⟨yTitle, ys⟩]
    [("traceType", .str (t.type.getD "box")), ("longForm", .bool true)])

/-- `isCartesianTrace` (lines 248–251). -/
def isCartesianTrace (t : Trace) : Bool :=
  (!isNullish t.x || !isNullish t.y) &&
    (t.type.isNone ||
      ["scatter", "scattergl", "bar", "histogram", "area", "line", "lines"].any
        fun s => t.type = some s)

/-- `fromCartesian` (lines 253–284): name resolution
(override > axis title > fallback for x, trace name > axis title >
generated fallback for y), then either the plain two-column table or the
long-form expansion when y is an array of arrays. -/
def fromCartesian (fig : Figure) (t : Trace) (yNameFallback : String)
    (opts : ExtractOptions) : Except String DataTable := do
  let x ← toArray t.x
  let y ← toArray t.y
  let xName := jsOr opts.xColumnName (jsOr (getXAxisTitle fig) "x")
  let yName := jsOr t.name (jsOr (getYAxisTitle fig) yNameFallback)
  match y with
  | (.arr _) :: _ => do
      let groups ← y.enum.mapM fun p => do
        let sub ← toArray p.2
        pure (sub.map fun yy => (nullish (getAt x p.1) (.num p.1), yy))
      let pairs := groups.flatten
      pure (makeTable (jsOr t.name (t.type.getD "cartesian-long"))
        [⟨xName, pairs.map (·.1)⟩, ⟨yName, pairs.map (·.2)⟩]
        [("traceType", .str (t.type.getD "cartesian")), ("longForm", .bool true)])
  | _ =>
      pure (makeTable (jsOr t.name (t.type.getD "cartesian"))
        [⟨xName, x⟩, ⟨yName, y⟩]
        [("traceType", .str (t.type.getD "cartesian"))])

/- ---------------- main extract ---------------- -/

/-- The last-resort fallback of the dispatch loop (lines 316–322): dump
whatever known array fields the trace has, one column per present field;
a trace with none of them pushes nothing (`none`). -/
def fallbackDump (t : Trace) (typ : String) : Option (Except String DataTable) :=
  let fields : List (String × Value) :=
    [("x", t.x), ("y", t.y), ("z", t.z), ("labels", t.labels),
     ("values", t.values), ("locations", t.locations), ("open", t.open_),
     ("high", t.high), ("low", t.low), ("close", t.close)]
  let present := fields.filter fun p => !isNullish p.2
  if present.isEmpty then none
  else
    some (do
      let cols ← present.mapM fun p => do
        let vs ← toArray p.2
        pure (⟨p.1, vs⟩ : DataColumn)
      pure (makeTable (jsOr t.name (if typ = "" then "trace" else typ)) cols
        [("traceType", .str (if typ = "" then "unknown" else typ))]))

/-- The per-trace dispatch of `extractTables`'s loop body (lines
295–323): `typ` is the lower-cased type, `ord` the value of the unnamed
counter for this iteration (it is bumped once per trace, recognized or
not).  `none` models the one silent outcome: a trace matching no
strategy and carrying none of the fallback array fields pushes nothing. -/
def convertTrace (fig : Figure) (opts : ExtractOptions) (ord : Nat) (t : Trace) :
    Option (Except String DataTable) :=
  let typ := lowerCase (t.type.getD "")
  let fallbackY := (jsOr opts.unnamedYPrefix "y") ++ "_" ++ toString ord
  if typ = "table" then some (fromTableTrace t)
  else if typ = "heatmap" ∨ typ = "image" ∨ typ = "contour" then
    some (fromHeatmapLike fig t)
  else if typ = "pie" ∨ typ = "sunburst" ∨ typ = "treemap" ∨ typ = "funnelarea" then
    some (fromPieLike t)
  else if typ = "ohlc" ∨ typ = "candlestick" then some (fromOhlcLike t)
  else if typ = "waterfall" then some (fromWaterfall t)
  else if typ = "choropleth" then some (fromChoropleth fig t)
  else if typ = "box" ∨ typ = "violin" then some (fromBoxOrViolin fig t)
  else if isCartesianTrace t then some (fromCartesian fig t fallbackY opts)
  else fallbackDump t typ

/-- The `for (const t of traces)` loop of `extractTables` over the
enumerated trace list: the unnamed counter for the trace at index `i` is
`i + 1`; a thrown decode error aborts the whole loop. -/
def buildPerTrace (fig : Figure) (opts : ExtractOptions) :
    List (Nat × Trace) → Except String (List DataTable)
  | [] => .ok []
  | (i, t) :: rest =>
    match convertTrace fig opts (i + 1) t with
    | none => buildPerTrace fig opts rest
    | some (.error e) => .error e
    | some (.ok tab) => (buildPerTrace fig opts rest).map (tab :: ·)

/-- Models the platform's `new Date(string)` used by the coercion pass
("String values are parsed as a calendar date/time; unparsable strings
are left unchanged", spec §4.5): plain `YYYY-MM-DD` dates parse to epoch
milliseconds, everything else is treated as unparsable. -/
def parseDateStr (s : String) : Option Int :=
  match (splitStr (· = '-') s).map decNat? with
  | [some y, some mo, some d] =>
    if 1 ≤ mo ∧ mo ≤ 12 ∧ 1 ≤ d ∧ d ≤ 31 then
      let y' : Int := if mo ≤ 2 then (y : Int) - 1 else (y : Int)
      let era : Int := (if 0 ≤ y' then y' else y' - 399) / 400
      let yoe : Int := y' - era * 400
      let mp : Int := if 2 < mo then (mo : Int) - 3 else (mo : Int) + 9
      let doy : Int := (153 * mp + 2) / 5 + (d : Int) - 1
      let doe : Int := yoe * 365 + yoe / 4 - yoe / 100 + doy
      some ((era * 146097 + doe - 719468) * 86400000)
    else none
  | _ => none

/-- The `maybeDate` heuristic of the date-coercion pass (lines 327–338):
Dates pass through, numbers in the epoch-millisecond range
(10 000 000, 17 000 000 000) convert (`new Date(ms)` truncates a
fractional part), parsable strings convert, everything else is returned
unchanged.  Total: the pass never fails. -/
def maybeDate (v : Value) : Value :=
  match v with
  | .vnull => v
  | .undefined => v
  | .date _ => v
  | .num q =>
    if 10000000 < q ∧ q < 17000000000 then .date ⌊q⌋ else .num q
  | .str s =>
    match parseDateStr s with
    | some ms => .date ms
    | none => .str s
  | v => v

/-- The per-table part of the coercion pass (lines 339–345): rewrite the
values of every column whose name is the resolved x name or (case
folded) `"x"`. -/
def coerceTable (xName : String) (tab : DataTable) : DataTable :=
  { tab with
    columns := tab.columns.map fun col =>
      if col.name = xName ∨ lowerCase col.name = "x" then
        { col with values := col.values.map maybeDate }
      else col }

/-- `mergeCartesianTables` (lines 361–385).  The JS `merged` record is
an insertion-ordered string-keyed object, modelled as an association
list with in-place update (`upsertCol`); the per-table index map keeps
the **last** row index of each key. -/
def upsertCol (l : List (String × DataColumn)) (k : String) (c : DataColumn) :
    List (String × DataColumn) :=
  if l.any (·.1 = k) then l.map fun p => if p.1 = k then (k, c) else p
  else l ++ [(k, c)]

/-- The merge key (line 362): Dates by ISO string, all else by
`String(v)`. -/
def mkey (v : Value) : String :=
  match v with
  | .date ms => isoStr ms
  | v => jsString v

/-- The key-column builder of `mergeCartesianTables` (lines 363–369):
the union of key values over every table's key column, de-duplicated by
`mkey`, in first-seen order. -/
def mergeXValues (tables : List DataTable) (xName : String) : List Value :=
  tables.foldl
    (fun acc tab =>
      match tab.columns.find? fun c => c.name = xName ∨ c.name = "x" with
      | none => acc
      | some xCol =>
        xCol.values.foldl
          (fun acc v => if acc.any fun w => mkey w = mkey v then acc else acc ++ [v])
          acc)
    []

/-- `mergeCartesianTables` (lines 361–385). -/
def mergeCartesianTables (tables : List DataTable) (xName : String) : DataTable :=
  let xValues := mergeXValues tables xName
  let merged : List (String × DataColumn) := [(xName, ⟨xName, xValues⟩)]
  let merged :=
    tables.foldl
      (fun acc tab =>
        match tab.columns.find? fun c => c.name = xName ∨ c.name = "x" with
        | none => acc
        | some xCol =>
          match tab.columns.find? fun c => c.name ≠ xCol.name with
          | none => acc
          | some yCol =>
            let out := xValues.map fun vx =>
              match (xCol.values.enum.filter fun p => mkey p.2 = mkey vx).getLast? with
              | some li => nullish (getAt yCol.values li.1) .vnull
              | none => Value.vnull
            upsertCol acc yCol.name ⟨yCol.name, out⟩)
      merged
  makeTable "merged_cartesian" (merged.map (·.2)) [("merged", .bool true)]

/-- The cartesian-table test of the merge step (lines 351–353): has a
key column and at least two columns. -/
def cartKeyPred (xName : String) (tab : DataTable) : Bool :=
  (tab.columns.any fun c => c.name = xName || c.name = "x") &&
    decide (2 ≤ tab.columns.length)

/-- `extractTables` (lines 289–359): run the dispatcher over every
trace, optionally coerce dates in the x columns, optionally merge the
cartesian subset (merged table first, non-cartesian tables passed
through in order). -/
def extractTables (fig : Figure) (opts : ExtractOptions) :
    Except String (List DataTable) := do
  let per ← buildPerTrace fig opts fig.data.enum
  let xNameC := jsOr opts.xColumnName (jsOr (getXAxisTitle fig) "x")
  let per := if opts.coerceDates.getD false then per.map (coerceTable xNameC) else per
  if opts.mergeCartesian.getD false = false then pure per
  else
    let xName := jsOr opts.xColumnName (jsOr (getXAxisTitle fig) "x")
    let cart := per.filter (cartKeyPred xName)
    let other := per.filter fun tb => !cartKeyPred xName tb
    if cart.isEmpty then pure per
    else pure (mergeCartesianTables cart xName :: other)

/- ------------- spec-worded companions (refinement, claim C4) ------------- -/

/-- Orientation correction as both the code and the spec word it: if the
candidate shape `s0 × s1` mismatches the label lengths but its exact
transpose matches, transpose. -/
def orientFix (xLen yLen : Nat) (Z : List (List Value)) (s0 s1 : Nat) :
    List (List Value) :=
  if 0 < xLen ∧ 0 < yLen ∧ (s0 ≠ yLen ∨ s1 ≠ xLen) then
    if s1 = yLen ∧ s0 = xLen then transpose Z else Z
  else Z

/-- The shape resolver as claim C4 words it: reshape by an explicit
rank-2 shape when present; *otherwise* by `(yLen, xLen)` when both label
arrays are non-empty; otherwise a square; otherwise a single row; then
orientation-correct. -/
def resolveZclaim (flat : List Value) (shape : Option Value) (xLen yLen : Nat) :
    List (List Value) :=
  match parseShape shape with
  | some (s0 :: s1 :: _) => orientFix xLen yLen (reshape2D flat s0 s1) s0 s1
  | _ =>
    if 0 < xLen ∧ 0 < yLen then
      orientFix xLen yLen (reshape2D flat yLen xLen) yLen xLen
    else if Nat.sqrt flat.length * Nat.sqrt flat.length = flat.length then
      orientFix xLen yLen
        (reshape2D flat (Nat.sqrt flat.length) (Nat.sqrt flat.length))
        (Nat.sqrt flat.length) (Nat.sqrt flat.length)
    else [flat]

/-- The shape resolver as the code actually behaves (amended claim C4):
as `resolveZclaim`, except that a shape hint that *parses* but has rank
< 2 (e.g. `[6]` or `[]`) suppresses the label/square fallbacks and
forces the single-row fallback. -/
def resolveZamended (flat : List Value) (shape : Option Value) (xLen yLen : Nat) :
    List (List Value) :=
  match parseShape shape with
  | some (s0 :: s1 :: _) => orientFix xLen yLen (reshape2D flat s0 s1) s0 s1
  | some _ => [flat]
  | none =>
    if 0 < xLen ∧ 0 < yLen then
      orientFix xLen yLen (reshape2D flat yLen xLen) yLen xLen
    else if Nat.sqrt flat.length * Nat.sqrt flat.length = flat.length then
      orientFix xLen yLen
        (reshape2D flat (Nat.sqrt flat.length) (Nat.sqrt flat.length))
        (Nat.sqrt flat.length) (Nat.sqrt flat.length)
    else [flat]

/-- The padding invariant of claim C7: every column of the table has the
maximal value-count among the table's columns. -/
def IsPadded (tab : DataTable) : Prop :=
  ∀ c ∈ tab.columns, c.values.length = maxColLen tab.columns

/-- The recognized trace kinds of claim C5: one of the dispatched type
tags, or a cartesian trace (a trace with x/y coordinate data and a
cartesian or absent type, `isCartesianTrace`). -/
def recognizedType (t : Trace) : Bool :=
  let typ := lowerCase (t.type.getD "")
  ["table", "heatmap", "image", "contour", "pie", "sunburst", "treemap",
   "funnelarea", "ohlc", "candlestick", "waterfall", "choropleth", "box",
   "violin"].any (fun s => typ = s) || isCartesianTrace t

/-- Little-endian serialization of a word list, `k` bytes per word: the
memory image a typed array of width `k` writes. -/
def encWords (k : Nat) (ws : List Nat) : List Nat := (ws.map (leBytesN k)).flatten

/-- Two's-complement encoding of an integer into a `bits`-wide word
(how a signed typed array stores it). -/
def intEnc (bits : Nat) (x : Int) : Nat := (x % (2 ^ bits : Int)).toNat

/-- The decoded `Value` of an integer (a JS number that is an integer). -/
def numInt (x : Int) : Value := .num (x : Rat)

/-- The decoded `Value` of a natural number. -/
def numNat (n : Nat) : Value := .num (n : Rat)

/-- Every table an extraction step may return satisfies the padding
invariant (carrier for claim C7's per-converter proofs). -/
def TbOk (e : Except String DataTable) : Prop :=
  ∀ tab, e = .ok tab → IsPadded tab

/- ------------- concrete inputs used by the claims ------------- -/

/-- A well-formed pie trace (sibling trace in several scenarios). -/
def pieTrace : Trace :=
  { type := some "pie", labels := .arr [.str "a", .str "b"],
    values := .arr [.num 1, .num 2] }

/-- The table `extractTables` produces for `pieTrace`. -/
def pieTable : DataTable :=
  ⟨"pie", [⟨"label", [.str "a", .str "b"]⟩, ⟨"value", [.num 1, .num 2]⟩],
   [("traceType", .str "pie")]⟩

/-- An untyped cartesian trace whose x carries a binary array with the
unsupported dtype tag `"i8"` (claim C1). -/
def badDtypeTrace : Trace := { x := .nd "i8" "" none, y := .arr [.num 5] }

/-- Claim C1's figure: one healthy pie trace, one trace with an
unsupported-dtype array. -/
def figBadDtype : Figure := { data := [pieTrace, badDtypeTrace] }

/-- The same figure without the malformed trace. -/
def figPieOnly : Figure := { data := [pieTrace] }

/-- An unnamed cartesian trace `{x:[1], y:[10]}` (claims C2, C3). -/
def cartTrace1 : Trace := { x := .arr [.num 1], y := .arr [.num 10] }

/-- An unnamed cartesian trace `{x:[2], y:[20]}` (claim C2). -/
def cartTrace2 : Trace := { x := .arr [.num 2], y := .arr [.num 20] }

/-- Claim C2's figure: a y-axis title makes both unnamed cartesian
traces produce a value column named `"v"`. -/
def figMergeClash : Figure :=
  { data := [cartTrace1, cartTrace2], layout := { yaxisTitle := some "v" } }

/-- Claim C2's amended-scenario figure: a pie trace (no key column)
alongside the two colliding cartesian traces. -/
def figMergeClashPie : Figure :=
  { data := [pieTrace, cartTrace1, cartTrace2],
    layout := { yaxisTitle := some "v" } }

/-- Claim C3's figure: the only untitled cartesian trace is preceded by
a (non-cartesian) pie trace; the figure has no y-axis title. -/
def figOrdinal : Figure := { data := [pieTrace, cartTrace1] }

/-- Claim C4's flat payload `[1,2,3,4,5,6]`. -/
def flatSix : List Value := [.num 1, .num 2, .num 3, .num 4, .num 5, .num 6]

/-- Claim C6's table A = `{x:[1,2,3], A.y:[10,20,30]}`. -/
def tableA : DataTable :=
  makeTable "A" [⟨"x", [.num 1, .num 2, .num 3]⟩,
                 ⟨"A.y", [.num 10, .num 20, .num 30]⟩] []

/-- Claim C6's table B = `{x:[2,3,4], B.y:[200,300,400]}`. -/
def tableB : DataTable :=
  makeTable "B" [⟨"x", [.num 2, .num 3, .num 4]⟩,
                 ⟨"B.y", [.num 200, .num 300, .num 400]⟩] []

/-- Two one-row tables keyed by the same calendar timestamp through
distinct `Date` values (claim C6's ISO-8601 de-duplication). -/
def tableDateA : DataTable :=
  makeTable "DA" [⟨"x", [.date 86400000]⟩, ⟨"da", [.num 1]⟩] []

/-- Companion of `tableDateA` with the same key. -/
def tableDateB : DataTable :=
  makeTable "DB" [⟨"x", [.date 86400000]⟩, ⟨"db", [.num 2]⟩] []

/-- A heatmap trace with binary z `[1..6]`, explicit shape `[2,3]`,
2 x-labels and 3 y-labels: the transpose-correction scenario of
claim C4. -/
def heatTransTrace : Trace :=
  { type := some "heatmap",
    x := .arr [.str "c1", .str "c2"],
    y := .arr [.str "r1", .str "r2", .str "r3"],
    z := .nd "u1" "AQIDBAUG" (some (.arr [.num 2, .num 3])) }

theorem chunksGo_nil (k fuel : Nat) : chunksGo k fuel [] = [] := by
  cases fuel with
  | zero => rfl
  | succ n =>
    simp only [chunksGo, List.length_nil]
    rw [if_pos (by omega)]

theorem chunksGo_congr (k : Nat) :
    ∀ fuel fuel' (l : List Nat), l.length ≤ fuel → l.length ≤ fuel' →
      chunksGo k fuel l = chunksGo k fuel' l := by
  intro fuel
  induction fuel with
  | zero =>
    intro fuel' l h _
    have hl : l = [] := List.eq_nil_of_length_eq_zero (Nat.le_zero.mp h)
    subst hl
    rw [chunksGo_nil, chunksGo_nil]
  | succ n ih =>
    intro fuel' l h h'
    cases l with
    | nil => rw [chunksGo_nil, chunksGo_nil]
    | cons a as =>
      cases fuel' with
      | zero => simp at h'
      | succ m =>
        simp only [chunksGo]
        split
        · rfl
        · next hc =>
          congr 1
          apply ih
          · simp only [List.length_drop, List.length_cons] at *
            omega
          · simp only [List.length_drop, List.length_cons] at *
            omega

/-- The defining equation of `chunksExact`. -/
theorem chunksExact_eq (k : Nat) (l : List Nat) :
    chunksExact k l =
      if k = 0 ∨ l.length < k then [] else l.take k :: chunksExact k (l.drop k) := by
  unfold chunksExact
  cases l with
  | nil =>
    simp only [List.length_nil]
    rw [if_pos (by omega), chunksGo_nil]
  | cons a as =>
    simp only [chunksGo, List.length_cons]
    split
    · rfl
    · next hc =>
      congr 1
      apply chunksGo_congr
      · simp only [List.length_drop, List.length_cons]
        omega
      · simp


/- ================= claim theorems ================= -/

/-- Claim C1, counterexample.  The claim says an unsupported-dtype
decode error is confined to its trace and `extractTables` on the
enclosing figure does not throw.  In fact the loop body of
`extractTables` has no error isolation: on a figure whose second trace
carries a `{dtype:"i8"}` array the whole call throws the
UnsupportedDtypeError, and the healthy sibling pie trace yields no
table. -/
theorem C1_counterexample :
    extractTables figBadDtype {} = .error "Unsupported ndarray dtype: i8" := by
  decide

/-- Claim C1, amended: decoding `{dtype:"i8", bdata:""}` fails with the
UnsupportedDtypeError, and that error propagates out of `extractTables`,
aborting extraction of the whole figure — sibling traces contribute no
tables.  The same figure without the malformed trace extracts its pie
table normally. -/
theorem C1_amended :
    decodeNdarray "i8" "" = .error "Unsupported ndarray dtype: i8" ∧
    extractTables figBadDtype {} = .error "Unsupported ndarray dtype: i8" ∧
    extractTables figPieOnly {} = .ok [pieTable] := by
  refine ⟨by decide, by decide, by decide⟩

/-- Claim C2, counterexample.  The claim says merging is never lossy:
every value column of every extracted table appears in the merged
output, one column per cartesian source table.  But the merged record is
keyed by value-column *name*: in a figure whose y-axis title names both
unnamed traces' value columns `"v"`, the second table's column
overwrites the first, and the first table's value `10` appears nowhere
in the output. -/
theorem C2_counterexample :
    extractTables figMergeClash { mergeCartesian := some true } =
      .ok [⟨"merged_cartesian",
            [⟨"x", [.num 1, .num 2]⟩, ⟨"v", [.vnull, .num 20]⟩],
            [("merged", .bool true)]⟩] ∧
    Value.num 10 ∉ ([.vnull, .num 20] : List Value) := by
  refine ⟨by decide, by decide⟩

/-- Claim C2, amended: with `mergeCartesian` enabled, each *distinct*
value-column name among the cartesian source tables contributes exactly
one column to the merged table; when several source tables share a
value-column name the later table's column overwrites the earlier one
(the merge is lossy under name collisions).  Tables lacking a
recognizable key column are still passed through unmerged alongside the
merged table. -/
theorem C2_amended :
    extractTables figMergeClashPie { mergeCartesian := some true } =
      .ok [⟨"merged_cartesian",
            [⟨"x", [.num 1, .num 2]⟩, ⟨"v", [.vnull, .num 20]⟩],
            [("merged", .bool true)]⟩,
           pieTable] := by
  decide

/-- Claim C3, counterexample.  The claim says the generated y-name
ordinal increments once per *untitled* trace, so the sole untitled
cartesian trace of `figOrdinal` (preceded only by a pie trace) should be
named `y_1`.  In fact the counter is bumped once per trace of any kind:
the trace gets `y_2`. -/
theorem C3_counterexample :
    extractTables figOrdinal {} =
      .ok [pieTable,
           ⟨"cartesian", [⟨"x", [.num 1]⟩, ⟨"y_2", [.num 10]⟩],
            [("traceType", .str "cartesian")]⟩] ∧
    "y_2" ≠ "y_1" := by
  refine ⟨by decide, by decide⟩

/-- Claim C6: merge alignment.  The key column is the ordered union of
distinct key values in first-seen order, series are filled by key lookup
with `null` for absent keys — `A = {x:[1,2,3], A.y:[10,20,30]}` and
`B = {x:[2,3,4], B.y:[200,300,400]}` merge to keys `[1,2,3,4]` with
`A.y = [10,20,30,null]`, `B.y = [null,200,300,400]` — and `Date` keys
de-duplicate by their ISO-8601 rendering (two distinct `Date` values for
the same instant merge onto one key row). -/
theorem C6_merge_alignment :
    mergeCartesianTables [tableA, tableB] "x" =
      ⟨"merged_cartesian",
       [⟨"x", [.num 1, .num 2, .num 3, .num 4]⟩,
        ⟨"A.y", [.num 10, .num 20, .num 30, .vnull]⟩,
        ⟨"B.y", [.vnull, .num 200, .num 300, .num 400]⟩],
       [("merged", .bool true)]⟩ ∧
    mergeCartesianTables [tableDateA, tableDateB] "x" =
      ⟨"merged_cartesian",
       [⟨"x", [.date 86400000]⟩, ⟨"da", [.num 1]⟩, ⟨"db", [.num 2]⟩],
       [("merged", .bool true)]⟩ := by
  refine ⟨by decide, by decide⟩

/-- Claim C4, counterexample.  The claim's cascade says that when no
*rank-2* shape hint is present the resolver falls back to the label
lengths.  The code instead checks only whether the hint *parsed*: a
rank-1 hint `[6]` (labels 3×2 present, flat length 6) suppresses the
fallbacks and produces the single-row arrangement, not the label-shaped
one the claim requires. -/
theorem C4_counterexample :
    resolveZ flatSix (some (.arr [.num 6])) 3 2 = [flatSix] ∧
    resolveZclaim flatSix (some (.arr [.num 6])) 3 2 =
      [[.num 1, .num 2, .num 3], [.num 4, .num 5, .num 6]] ∧
    ([flatSix] : List (List Value)) ≠
      [[.num 1, .num 2, .num 3], [.num 4, .num 5, .num 6]] := by
  refine ⟨by decide, by decide, by decide⟩

/-- Claim C4, amended: the resolver reshapes row-major by an explicit
shape hint that parses with rank ≥ 2; a hint that parses with rank < 2
forces the single-row fallback; only an absent or unparseable hint falls
back to `(len y, len x)` when both label arrays are non-empty, then to a
square, then to a single row; and a candidate shape whose exact
transpose matches the label lengths is transposed (`resolveZamended`
states exactly this cascade).  In particular the flat 6-element array
with shape `[2,3]` against 2 x-labels and 3 y-labels comes out as the
3×2 arrangement matching the labels, and the enclosing heatmap
conversion emits the label-aligned table. -/
theorem C4_amended :
    (∀ (flat : List Value) (shape : Option Value) (xLen yLen : Nat),
        resolveZ flat shape xLen yLen = resolveZamended flat shape xLen yLen) ∧
    resolveZ flatSix (some (.arr [.num 2, .num 3])) 2 3 =
      [[.num 1, .num 4], [.num 2, .num 5], [.num 3, .num 6]] ∧
    fromHeatmapLike { data := [heatTransTrace] } heatTransTrace =
      .ok ⟨"heatmap",
           [⟨"y", [.str "r1", .str "r2", .str "r3"]⟩,
            ⟨"c1", [.num 1, .num 2, .num 3]⟩,
            ⟨"c2", [.num 4, .num 5, .num 6]⟩],
           [("traceType", .str "heatmap"), ("valueTitle", .str "z")]⟩ := by
  refine ⟨?_, by decide, by decide⟩
  intro flat shape xLen yLen
  unfold resolveZ resolveZamended orientFix
  cases hp : parseShape shape with
  | none =>
    by_cases hxy : 0 < xLen ∧ 0 < yLen
    · simp [hxy]
    · simp only [if_neg hxy]
      by_cases hsq : Nat.sqrt flat.length * Nat.sqrt flat.length = flat.length
      · simp [hsq, hxy]
      · simp [hsq, hxy]
  | some l =>
    match l with
    | [] => simp
    | [s0] => simp
    | s0 :: s1 :: rest => simp

theorem maybeDate_idem (v : Value) : maybeDate (maybeDate v) = maybeDate v := by
  cases v with
  | num q =>
    by_cases h : 10000000 < q ∧ q < 17000000000
    · simp [maybeDate, h]
    · simp [maybeDate, h]
  | str s =>
    cases hp : parseDateStr s with
    | none => simp [maybeDate, hp]
    | some ms => simp [maybeDate, hp]
  | _ => rfl

/-- Claim C9: the date-coercion pass is idempotent and total — coercing
a table twice equals coercing it once; `Date` values pass through
unchanged; numbers convert exactly when strictly between 10 000 000 and
17 000 000 000; unparsable strings and uninterpretable values (booleans,
nulls) are returned unmodified rather than raising (`maybeDate` and
`coerceTable` are total functions: the pass cannot fail). -/
theorem C9_date_coercion_idempotent :
    (∀ (xName : String) (tab : DataTable),
        coerceTable xName (coerceTable xName tab) = coerceTable xName tab) ∧
    (∀ ms : Int, maybeDate (.date ms) = .date ms) ∧
    (∀ q : Rat, maybeDate (.num q) =
        if 10000000 < q ∧ q < 17000000000 then .date ⌊q⌋ else .num q) ∧
    (∀ s : String, parseDateStr s = none → maybeDate (.str s) = .str s) ∧
    (∀ b : Bool, maybeDate (.bool b) = .bool b) ∧
    maybeDate .vnull = .vnull ∧ maybeDate .undefined = .undefined := by
  refine ⟨?_, fun _ => rfl, fun _ => rfl, ?_, fun _ => rfl, rfl, rfl⟩
  · intro xName tab
    unfold coerceTable
    simp only [List.map_map]
    congr 1
    apply List.map_congr_left
    intro col _
    by_cases h : col.name = xName ∨ lowerCase col.name = "x"
    · simp only [Function.comp_apply, if_pos h, List.map_map]
      congr 1
      apply List.map_congr_left
      intro v _
      exact maybeDate_idem v
    · simp only [Function.comp_apply, if_neg h]
  · intro s hs
    simp [maybeDate, hs]

/-- Witness for C9: the theorem applied to a concrete table (an x
column holding a number in range, an unparsable string, a `Date` and a
boolean) and to the unparsable string `"zzz"`. -/
theorem C9_witness :
    coerceTable "x"
        (coerceTable "x"
          ⟨"w", [⟨"x", [.num 20000000, .str "zzz", .date 5, .bool true]⟩], []⟩) =
      coerceTable "x"
        ⟨"w", [⟨"x", [.num 20000000, .str "zzz", .date 5, .bool true]⟩], []⟩ ∧
    maybeDate (.str "zzz") = .str "zzz" :=
  ⟨C9_date_coercion_idempotent.1 "x" _,
   C9_date_coercion_idempotent.2.2.2.1 "zzz" (by decide)⟩


theorem b64val_b64char : ∀ n < 64, b64val (b64char n) = some n := by decide

theorem b64char_ne_eq (n : Nat) : b64char n ≠ '=' := by
  by_cases h : n < 64
  · exact (by decide : ∀ m < 64, b64char m ≠ '=') n h
  · unfold b64char
    rw [List.getD_eq_default]
    · decide
    · have h64 : b64chars.length = 64 := by decide
      omega

theorem encodeGroups_lt64 : ∀ bytes, (∀ b ∈ bytes, b < 256) →
    ∀ s ∈ encodeGroups bytes, s < 64
  | [] => by simp [encodeGroups]
  | [a] => by
    intro h s hs
    have ha := h a (by simp)
    simp [encodeGroups] at hs
    rcases hs with rfl | rfl <;> omega
  | [a, b] => by
    intro h s hs
    have ha := h a (by simp)
    have hb := h b (by simp)
    simp [encodeGroups] at hs
    rcases hs with rfl | rfl | rfl <;> omega
  | a :: b :: c :: rest => by
    intro h s hs
    have ha := h a (by simp)
    have hb := h b (by simp)
    have hc := h c (by simp)
    simp only [encodeGroups, List.mem_cons] at hs
    rcases hs with rfl | rfl | rfl | rfl | hs
    · omega
    · omega
    · omega
    · omega
    · exact encodeGroups_lt64 rest (fun x hx => h x (by simp [hx])) s hs

theorem decodeSextets_encodeGroups : ∀ bytes, (∀ b ∈ bytes, b < 256) →
    decodeSextets (encodeGroups bytes) = bytes
  | [] => fun _ => rfl
  | [a] => by
    intro h
    have ha := h a (by simp)
    show [a / 4 * 4 + a % 4 * 16 / 16] = [a]
    have h1 : a / 4 * 4 + a % 4 * 16 / 16 = a := by omega
    rw [h1]
  | [a, b] => by
    intro h
    have ha := h a (by simp)
    have hb := h b (by simp)
    show [a / 4 * 4 + (a % 4 * 16 + b / 16) / 16,
          (a % 4 * 16 + b / 16) % 16 * 16 + b % 16 * 4 / 4] = [a, b]
    have h1 : a / 4 * 4 + (a % 4 * 16 + b / 16) / 16 = a := by omega
    have h2 : (a % 4 * 16 + b / 16) % 16 * 16 + b % 16 * 4 / 4 = b := by omega
    rw [h1, h2]
  | a :: b :: c :: rest => by
    intro h
    have ha := h a (by simp)
    have hb := h b (by simp)
    have hc := h c (by simp)
    show (a / 4 * 4 + (a % 4 * 16 + b / 16) / 16) ::
         ((a % 4 * 16 + b / 16) % 16 * 16 + (b % 16 * 4 + c / 64) / 4) ::
         ((b % 16 * 4 + c / 64) % 4 * 64 + c % 64) ::
         decodeSextets (encodeGroups rest) = a :: b :: c :: rest
    have h1 : a / 4 * 4 + (a % 4 * 16 + b / 16) / 16 = a := by omega
    have h2 : (a % 4 * 16 + b / 16) % 16 * 16 + (b % 16 * 4 + c / 64) / 4 = b := by
      omega
    have h3 : (b % 16 * 4 + c / 64) % 4 * 64 + c % 64 = c := by omega
    rw [h1, h2, h3, decodeSextets_encodeGroups rest (fun x hx => h x (by simp [hx]))]

theorem encodeGroups_length : ∀ bytes : List Nat,
    (encodeGroups bytes).length =
      4 * (bytes.length / 3) +
        (if bytes.length % 3 = 0 then 0 else if bytes.length % 3 = 1 then 2 else 3)
  | [] => by simp [encodeGroups]
  | [a] => by simp [encodeGroups]
  | [a, b] => by simp [encodeGroups]
  | a :: b :: c :: rest => by
    have ih := encodeGroups_length rest
    simp only [encodeGroups, List.length_cons, ih]
    have h3 : rest.length % 3 = 0 ∨ rest.length % 3 = 1 ∨ rest.length % 3 = 2 := by
      omega
    have hm : (rest.length + 1 + 1 + 1) % 3 = rest.length % 3 := by omega
    have hd : (rest.length + 1 + 1 + 1) / 3 = rest.length / 3 + 1 := by omega
    rcases h3 with h3 | h3 | h3 <;> simp [hm, h3, hd] <;> omega

theorem stripPad_no_pad (cs : List Char) (h : cs.getLast? ≠ some '=') :
    stripPad cs = cs := by
  unfold stripPad
  by_cases h4 : cs.length % 4 = 0
  · rw [if_pos h4, if_neg h]
  · rw [if_neg h4]

theorem stripPad_two (l : List Char) (h4 : (l.length + 2) % 4 = 0) :
    stripPad (l ++ ['=', '=']) = l := by
  have hsplit : l ++ ['=', '='] = (l ++ ['=']) ++ ['='] := by simp
  unfold stripPad
  rw [if_pos (by simp; omega), hsplit, if_pos (List.getLast?_concat _),
    List.dropLast_concat, if_pos (List.getLast?_concat _), List.dropLast_concat]

theorem stripPad_one (l : List Char) (h4 : (l.length + 1) % 4 = 0)
    (h : l.getLast? ≠ some '=') : stripPad (l ++ ['=']) = l := by
  unfold stripPad
  rw [if_pos (by simp; omega), if_pos (List.getLast?_concat _),
    List.dropLast_concat, if_neg h]

theorem mapOpt_b64val : ∀ ss : List Nat, (∀ s ∈ ss, s < 64) →
    mapOpt b64val (ss.map b64char) = some ss
  | [] => by intro h; rfl
  | s :: rest => by
    intro h
    have hs := b64val_b64char s (h s (by simp))
    have ih := mapOpt_b64val rest (fun x hx => h x (by simp [hx]))
    simp [mapOpt, hs, ih]

theorem base64_roundtrip (bytes : List Nat) (h : ∀ b ∈ bytes, b < 256) :
    base64ToBytes (bytesToBase64 bytes) = .ok bytes := by
  have hlen := encodeGroups_length bytes
  have hlt := encodeGroups_lt64 bytes h
  have hne : ((encodeGroups bytes).map b64char).getLast? ≠ some '=' := by
    intro hl
    obtain ⟨n, _, hn⟩ := List.mem_map.mp (List.mem_of_mem_getLast? hl)
    exact b64char_ne_eq n hn
  have hmo := mapOpt_b64val (encodeGroups bytes) hlt
  have hdec := decodeSextets_encodeGroups bytes h
  have hstr : ∀ l : List Char, (String.mk l).toList = l := fun _ => rfl
  have h3 : bytes.length % 3 = 0 ∨ bytes.length % 3 = 1 ∨ bytes.length % 3 = 2 := by
    omega
  unfold bytesToBase64 base64ToBytes
  dsimp only
  rcases h3 with h3 | h3 | h3
  · have hpad : (if bytes.length % 3 = 0 then (0 : Nat)
        else if bytes.length % 3 = 1 then 2 else 1) = 0 := by simp [h3]
    rw [hpad, List.replicate_zero, List.append_nil, hstr, stripPad_no_pad _ hne,
      if_neg (by rw [List.length_map, hlen]; simp [h3]; try omega), hmo]
    dsimp only
    rw [hdec]
  · have hpad : (if bytes.length % 3 = 0 then (0 : Nat)
        else if bytes.length % 3 = 1 then 2 else 1) = 2 := by simp [h3]
    rw [hpad]
    simp only [List.replicate_succ, List.replicate_zero]
    rw [hstr, stripPad_two _ (by rw [List.length_map, hlen]; simp [h3]; try omega),
      if_neg (by rw [List.length_map, hlen]; simp [h3]; try omega), hmo]
    dsimp only
    rw [hdec]
  · have hpad : (if bytes.length % 3 = 0 then (0 : Nat)
        else if bytes.length % 3 = 1 then 2 else 1) = 1 := by simp [h3]
    rw [hpad]
    simp only [List.replicate_succ, List.replicate_zero]
    rw [hstr, stripPad_one _ (by rw [List.length_map, hlen]; simp [h3]; try omega) hne,
      if_neg (by rw [List.length_map, hlen]; simp [h3]; try omega), hmo]
    dsimp only
    rw [hdec]

theorem leBytesN_lt : ∀ (k w : Nat), ∀ b ∈ leBytesN k w, b < 256
  | 0, _ => by simp [leBytesN]
  | k + 1, w => by
    intro b hb
    simp only [leBytesN, List.mem_cons] at hb
    rcases hb with rfl | hb
    · omega
    · exact leBytesN_lt k (w / 256) b hb

theorem leBytesN_length (k w : Nat) : (leBytesN k w).length = k := by
  induction k generalizing w with
  | zero => rfl
  | succ n ih => simp [leBytesN, ih]

theorem leNat_leBytesN : ∀ (k w : Nat), leNat (leBytesN k w) = w % 256 ^ k
  | 0, w => by simp [leBytesN, leNat, Nat.mod_one]
  | k + 1, w => by
    have ih := leNat_leBytesN k (w / 256)
    simp only [leBytesN, leNat, List.foldr_cons] at ih ⊢
    rw [ih]
    have h1 : 256 ^ (k + 1) = 256 * 256 ^ k := by ring
    rw [h1, Nat.mod_mul]

theorem encWords_lt (k : Nat) (ws : List Nat) : ∀ b ∈ encWords k ws, b < 256 := by
  intro b hb
  simp only [encWords, List.mem_flatten] at hb
  obtain ⟨g, hg, hbg⟩ := hb
  obtain ⟨w, _, rfl⟩ := List.mem_map.mp hg
  exact leBytesN_lt k w b hbg

theorem chunksExact_flatten (k : Nat) (hk : 0 < k) :
    ∀ gs : List (List Nat), (∀ g ∈ gs, g.length = k) →
      chunksExact k gs.flatten = gs := by
  intro gs
  induction gs with
  | nil =>
    intro _
    rw [chunksExact_eq]
    simp [hk]
  | cons g rest ih =>
    intro h
    have hg : g.length = k := h g (by simp)
    rw [List.flatten_cons, chunksExact_eq]
    have hlen : (g ++ rest.flatten).length = k + rest.flatten.length := by
      simp [hg]
    rw [if_neg (by omega)]
    rw [← hg, List.take_left, List.drop_left]
    rw [hg, ih (fun x hx => h x (by simp [hx]))]

theorem chunksExact_length (k : Nat) (hk : 0 < k) :
    ∀ (n : Nat) (l : List Nat), l.length ≤ n →
      (chunksExact k l).length = l.length / k := by
  intro n
  induction n with
  | zero =>
    intro l hl
    have : l = [] := List.eq_nil_of_length_eq_zero (Nat.le_zero.mp hl)
    subst this
    rw [chunksExact_eq]
    simp [hk]
  | succ n ih =>
    intro l hl
    rw [chunksExact_eq]
    by_cases hc : k = 0 ∨ l.length < k
    · rw [if_pos hc]
      rcases hc with hc | hc
      · omega
      · simp [Nat.div_eq_of_lt hc]
    · rw [if_neg hc]
      push_neg at hc
      have hkle : k ≤ l.length := hc.2
      have hdrop : (l.drop k).length = l.length - k := by simp
      have := ih (l.drop k) (by omega)
      simp only [List.length_cons, this, hdrop]
      have h2 : l.length - k + k = l.length := Nat.sub_add_cancel hkle
      have h3 := Nat.add_div_right (l.length - k) hk
      rw [h2] at h3
      omega

theorem bind_ok_ex {e a b : Type} (x : a) (f : a → Except e b) :
    (Except.ok x >>= f) = f x := rfl

theorem toSigned_intEnc_8 (x : Int) (hlo : -128 ≤ x) (hhi : x < 128) :
    toSigned 8 (intEnc 8 x) = x := by
  unfold toSigned intEnc
  have h1 : (2 : Nat) ^ (8 - 1) = 128 := by norm_num
  have h2 : (2 : Int) ^ 8 = 256 := by norm_num
  rw [h1, h2]
  split <;> omega

theorem toSigned_intEnc_16 (x : Int) (hlo : -32768 ≤ x) (hhi : x < 32768) :
    toSigned 16 (intEnc 16 x) = x := by
  unfold toSigned intEnc
  have h1 : (2 : Nat) ^ (16 - 1) = 32768 := by norm_num
  have h2 : (2 : Int) ^ 16 = 65536 := by norm_num
  rw [h1, h2]
  split <;> omega

theorem toSigned_intEnc_32 (x : Int) (hlo : -2147483648 ≤ x) (hhi : x < 2147483648) :
    toSigned 32 (intEnc 32 x) = x := by
  unfold toSigned intEnc
  have h1 : (2 : Nat) ^ (32 - 1) = 2147483648 := by norm_num
  have h2 : (2 : Int) ^ 32 = 4294967296 := by norm_num
  rw [h1, h2]
  split <;> omega

theorem intEnc_lt (bits : Nat) (x : Int) : intEnc bits x < 2 ^ bits := by
  unfold intEnc
  have hpos : (0 : Int) < 2 ^ bits := by positivity
  have hmod := Int.emod_lt_of_pos x hpos
  have hnn := Int.emod_nonneg x (ne_of_gt hpos)
  have hcast : ((2 ^ bits : Nat) : Int) = (2 : Int) ^ bits := by push_cast; ring
  omega

theorem encWords_one : ∀ ws : List Nat, encWords 1 ws = ws.map (· % 256)
  | [] => rfl
  | w :: rest => by
    have ih := encWords_one rest
    simp only [encWords, List.map_cons, List.flatten_cons, leBytesN] at ih ⊢
    rw [ih]
    rfl

theorem chunksExact_encWords (k : Nat) (hk : 0 < k) (ws : List Nat) :
    chunksExact k (encWords k ws) = ws.map (leBytesN k) := by
  apply chunksExact_flatten k hk
  intro g hg
  obtain ⟨w, _, rfl⟩ := List.mem_map.mp hg
  exact leBytesN_length k w

theorem decodeNdarray_encWords (d : String) (k : Nat) (hk : 0 < k) (F : Nat → Value)
    (hdec : ∀ bytes, decodeBytes d bytes =
      some ((chunksExact k bytes).map fun g => F (leNat g)))
    (ws : List Nat) (hw : ∀ w ∈ ws, w < 256 ^ k) :
    decodeNdarray d (bytesToBase64 (encWords k ws)) = .ok (ws.map F) := by
  have hb := base64_roundtrip _ (encWords_lt k ws)
  unfold decodeNdarray
  rw [hb, bind_ok_ex, hdec, chunksExact_encWords k hk ws]
  dsimp only
  rw [List.map_map]
  congr 1
  apply List.map_congr_left
  intro w hwm
  simp only [Function.comp_apply]
  rw [leNat_leBytesN, Nat.mod_eq_of_lt (hw w hwm)]
/-- Claim C8: decode round-trip.  For each of the eight supported
dtypes, serializing a numeric sequence little-endian at the dtype's
width (integers two's-complement in range, floats by their IEEE-754
bit patterns), base64-encoding the bytes and decoding the resulting
descriptor returns the original sequence — integers exactly, floats as
the values their stored representations denote (`f32prim`/`f64prim`),
i.e. exactly up to that width's representation. -/
theorem C8_decode_roundtrip :
    (∀ xs : List Int, (∀ x ∈ xs, -128 ≤ x ∧ x < 128) →
        decodeNdarray "i1" (bytesToBase64 (encWords 1 (xs.map (intEnc 8)))) =
          .ok (xs.map numInt)) ∧
    (∀ ns : List Nat, (∀ n ∈ ns, n < 256) →
        decodeNdarray "u1" (bytesToBase64 (encWords 1 ns)) =
          .ok (ns.map numNat)) ∧
    (∀ xs : List Int, (∀ x ∈ xs, -32768 ≤ x ∧ x < 32768) →
        decodeNdarray "i2" (bytesToBase64 (encWords 2 (xs.map (intEnc 16)))) =
          .ok (xs.map numInt)) ∧
    (∀ ns : List Nat, (∀ n ∈ ns, n < 65536) →
        decodeNdarray "u2" (bytesToBase64 (encWords 2 ns)) =
          .ok (ns.map numNat)) ∧
    (∀ xs : List Int, (∀ x ∈ xs, -2147483648 ≤ x ∧ x < 2147483648) →
        decodeNdarray "i4" (bytesToBase64 (encWords 4 (xs.map (intEnc 32)))) =
          .ok (xs.map numInt)) ∧
    (∀ ns : List Nat, (∀ n ∈ ns, n < 4294967296) →
        decodeNdarray "u4" (bytesToBase64 (encWords 4 ns)) =
          .ok (ns.map numNat)) ∧
    (∀ ws : List Nat, (∀ w ∈ ws, w < 4294967296) →
        decodeNdarray "f4" (bytesToBase64 (encWords 4 ws)) =
          .ok (ws.map f32prim)) ∧
    (∀ ws : List Nat, (∀ w ∈ ws, w < 18446744073709551616) →
        decodeNdarray "f8" (bytesToBase64 (encWords 8 ws)) =
          .ok (ws.map f64prim)) := by
  refine ⟨?_, ?_, ?_, ?_, ?_, ?_, ?_, ?_⟩
  · intro xs h
    have hb := base64_roundtrip _ (encWords_lt 1 (xs.map (intEnc 8)))
    unfold decodeNdarray
    rw [hb, bind_ok_ex]
    simp only [decodeBytes]
    rw [encWords_one, List.map_map, List.map_map]
    congr 1
    apply List.map_congr_left
    intro x hx
    simp only [Function.comp_apply]
    have hlt := intEnc_lt 8 x
    norm_num at hlt
    rw [Nat.mod_eq_of_lt hlt, toSigned_intEnc_8 x (h x hx).1 (h x hx).2]
    rfl
  · intro ns h
    have hb := base64_roundtrip _ (encWords_lt 1 ns)
    unfold decodeNdarray
    rw [hb, bind_ok_ex]
    simp only [decodeBytes]
    rw [encWords_one, List.map_map]
    congr 1
    apply List.map_congr_left
    intro n hn
    simp only [Function.comp_apply]
    rw [Nat.mod_eq_of_lt (h n hn)]
    rfl
  · intro xs h
    rw [decodeNdarray_encWords "i2" 2 (by omega)
      (fun w => .num ((toSigned 16 w : Int) : Rat)) (fun bytes => rfl) _
      (by intro w hw
          obtain ⟨x, _, rfl⟩ := List.mem_map.mp hw
          have := intEnc_lt 16 x
          norm_num at this ⊢
          omega)]
    rw [List.map_map]
    congr 1
    apply List.map_congr_left
    intro x hx
    simp only [Function.comp_apply]
    rw [toSigned_intEnc_16 x (h x hx).1 (h x hx).2]
    rfl
  · intro ns h
    rw [decodeNdarray_encWords "u2" 2 (by omega)
      (fun w => .num (w : Rat)) (fun bytes => rfl) _
      (by intro w hw; norm_num; exact h w hw)]
    rfl
  · intro xs h
    rw [decodeNdarray_encWords "i4" 4 (by omega)
      (fun w => .num ((toSigned 32 w : Int) : Rat)) (fun bytes => rfl) _
      (by intro w hw
          obtain ⟨x, _, rfl⟩ := List.mem_map.mp hw
          have := intEnc_lt 32 x
          norm_num at this ⊢
          omega)]
    rw [List.map_map]
    congr 1
    apply List.map_congr_left
    intro x hx
    simp only [Function.comp_apply]
    rw [toSigned_intEnc_32 x (h x hx).1 (h x hx).2]
    rfl
  · intro ns h
    rw [decodeNdarray_encWords "u4" 4 (by omega)
      (fun w => .num (w : Rat)) (fun bytes => rfl) _
      (by intro w hw; norm_num; exact h w hw)]
    rfl
  · intro ws h
    rw [decodeNdarray_encWords "f4" 4 (by omega) f32prim (fun bytes => rfl) _
      (by intro w hw; norm_num; exact h w hw)]
  · intro ws h
    rw [decodeNdarray_encWords "f8" 8 (by omega) f64prim (fun bytes => rfl) _
      (by intro w hw; norm_num; exact h w hw)]

/-- Claim C10: for every supported dtype, decoding a binary-encoded
array never fails, whatever the payload length — a decoded byte count
that is not a multiple of the dtype's element width is silently
truncated to `floor(byteLength / width)` elements (the typed-array view
built with `Math.floor(bytes.byteLength / width)`). -/
theorem C10_decode_truncates (bytes : List Nat) (h : ∀ b ∈ bytes, b < 256) :
    (decodeNdarray "i1" (bytesToBase64 bytes)).map List.length =
      .ok (bytes.length / 1) ∧
    (decodeNdarray "u1" (bytesToBase64 bytes)).map List.length =
      .ok (bytes.length / 1) ∧
    (decodeNdarray "i2" (bytesToBase64 bytes)).map List.length =
      .ok (bytes.length / 2) ∧
    (decodeNdarray "u2" (bytesToBase64 bytes)).map List.length =
      .ok (bytes.length / 2) ∧
    (decodeNdarray "i4" (bytesToBase64 bytes)).map List.length =
      .ok (bytes.length / 4) ∧
    (decodeNdarray "u4" (bytesToBase64 bytes)).map List.length =
      .ok (bytes.length / 4) ∧
    (decodeNdarray "f4" (bytesToBase64 bytes)).map List.length =
      .ok (bytes.length / 4) ∧
    (decodeNdarray "f8" (bytesToBase64 bytes)).map List.length =
      .ok (bytes.length / 8) := by
  have hb := base64_roundtrip bytes h
  refine ⟨?_, ?_, ?_, ?_, ?_, ?_, ?_, ?_⟩ <;>
    · unfold decodeNdarray
      rw [hb, bind_ok_ex]
      simp only [decodeBytes, pure, Except.pure, Except.map, List.length_map]
      first
        | rw [Nat.div_one]
        | rw [chunksExact_length 2 (by omega) bytes.length bytes le_rfl]
        | rw [chunksExact_length 4 (by omega) bytes.length bytes le_rfl]
        | rw [chunksExact_length 8 (by omega) bytes.length bytes le_rfl]

/-- Witness for C8: the round trip applied to concrete sequences for
all eight dtypes (`-1, 2` as i1; `7, 200` as u1; `-300, 300` as i2;
`60000` as u2; `-100000, 100000` as i4; `4000000000` as u4; the bit
patterns of 1.5f and 1.5 as f4/f8). -/
theorem C8_witness :
    decodeNdarray "i1" (bytesToBase64 (encWords 1 (([-1, 2] : List Int).map (intEnc 8)))) =
      .ok (([-1, 2] : List Int).map numInt) ∧
    decodeNdarray "u1" (bytesToBase64 (encWords 1 [7, 200])) =
      .ok (([7, 200] : List Nat).map numNat) ∧
    decodeNdarray "i2" (bytesToBase64 (encWords 2 (([-300, 300] : List Int).map (intEnc 16)))) =
      .ok (([-300, 300] : List Int).map numInt) ∧
    decodeNdarray "u2" (bytesToBase64 (encWords 2 [60000])) =
      .ok (([60000] : List Nat).map numNat) ∧
    decodeNdarray "i4" (bytesToBase64 (encWords 4 (([-100000, 100000] : List Int).map (intEnc 32)))) =
      .ok (([-100000, 100000] : List Int).map numInt) ∧
    decodeNdarray "u4" (bytesToBase64 (encWords 4 [4000000000])) =
      .ok (([4000000000] : List Nat).map numNat) ∧
    decodeNdarray "f4" (bytesToBase64 (encWords 4 [1069547520])) =
      .ok ([f32prim 1069547520]) ∧
    decodeNdarray "f8" (bytesToBase64 (encWords 8 [4609434218613702656])) =
      .ok ([f64prim 4609434218613702656]) :=
  ⟨C8_decode_roundtrip.1 [-1, 2] (by decide),
   C8_decode_roundtrip.2.1 [7, 200] (by decide),
   C8_decode_roundtrip.2.2.1 [-300, 300] (by decide),
   C8_decode_roundtrip.2.2.2.1 [60000] (by decide),
   C8_decode_roundtrip.2.2.2.2.1 [-100000, 100000] (by decide),
   C8_decode_roundtrip.2.2.2.2.2.1 [4000000000] (by decide),
   C8_decode_roundtrip.2.2.2.2.2.2.1 [1069547520] (by decide),
   C8_decode_roundtrip.2.2.2.2.2.2.2 [4609434218613702656] (by decide)⟩

/-- Witness for C10: a 3-byte payload decodes under every dtype, with
element counts 3, 3, 1, 1, 0, 0, 0, 0. -/
theorem C10_witness :
    (decodeNdarray "i1" (bytesToBase64 [1, 2, 3])).map List.length = .ok 3 ∧
    (decodeNdarray "u1" (bytesToBase64 [1, 2, 3])).map List.length = .ok 3 ∧
    (decodeNdarray "i2" (bytesToBase64 [1, 2, 3])).map List.length = .ok 1 ∧
    (decodeNdarray "u2" (bytesToBase64 [1, 2, 3])).map List.length = .ok 1 ∧
    (decodeNdarray "i4" (bytesToBase64 [1, 2, 3])).map List.length = .ok 0 ∧
    (decodeNdarray "u4" (bytesToBase64 [1, 2, 3])).map List.length = .ok 0 ∧
    (decodeNdarray "f4" (bytesToBase64 [1, 2, 3])).map List.length = .ok 0 ∧
    (decodeNdarray "f8" (bytesToBase64 [1, 2, 3])).map List.length = .ok 0 :=
  C10_decode_truncates [1, 2, 3] (by decide)

theorem maxColLen_le (columns : List DataColumn) :
    ∀ c ∈ columns, c.values.length ≤ maxColLen columns := by
  induction columns with
  | nil => simp
  | cons a rest ih =>
    intro c hc
    simp only [maxColLen, List.foldr_cons] at *
    rcases List.mem_cons.mp hc with rfl | hc
    · omega
    · have := ih c hc
      omega

theorem maxColLen_all_eq (columns : List DataColumn) (n : Nat)
    (h : ∀ c ∈ columns, c.values.length = n) (hne : columns ≠ []) :
    maxColLen columns = n := by
  induction columns with
  | nil => exact absurd rfl hne
  | cons a rest ih =>
    have ha : a.values.length = n := h a (by simp)
    cases rest with
    | nil => simp [maxColLen, ha]
    | cons b r =>
      have hr := ih (fun c hc => h c (by simp [List.mem_cons.mp hc])) (by simp)
      simp only [maxColLen, List.foldr_cons] at hr ⊢
      omega

theorem padColumns_length (columns : List DataColumn) :
    ∀ c ∈ padColumnsToSameLength columns, c.values.length = maxColLen columns := by
  intro c hc
  unfold padColumnsToSameLength at hc
  obtain ⟨c0, hc0, rfl⟩ := List.mem_map.mp hc
  have hle := maxColLen_le columns c0 hc0
  by_cases he : c0.values.length = maxColLen columns
  · simp [he]
  · simp [he, List.length_append, List.length_replicate]
    omega

theorem isPadded_makeTable (title : String) (columns : List DataColumn)
    (meta : List (String × Value)) : IsPadded (makeTable title columns meta) := by
  intro c hc
  simp only [makeTable] at hc ⊢
  have hlen := padColumns_length columns c hc
  rw [hlen]
  exact (maxColLen_all_eq _ _ (padColumns_length columns)
    (List.ne_nil_of_mem hc)).symm

theorem tbok_bind {a : Type} {x : Except String a}
    {f : a → Except String DataTable} (hf : ∀ v, TbOk (f v)) : TbOk (x >>= f) := by
  intro tab h
  cases x with
  | error e => exact absurd h (by simp [Bind.bind, Except.bind])
  | ok v => exact hf v tab (by simpa [Bind.bind, Except.bind] using h)

theorem tbok_pure (title : String) (columns : List DataColumn)
    (meta : List (String × Value)) :
    TbOk (pure (makeTable title columns meta)) := by
  intro tab h
  have : makeTable title columns meta = tab := by
    simpa [pure, Except.pure] using h
  rw [← this]
  exact isPadded_makeTable title columns meta

theorem fromTableTrace_tbok (t : Trace) : TbOk (fromTableTrace t) := by
  unfold fromTableTrace
  try dsimp only
  repeat' first
    | exact tbok_pure _ _ _
    | (apply tbok_bind; intro v)
    | split

theorem fromHeatmapLike_tbok (fig : Figure) (t : Trace) :
    TbOk (fromHeatmapLike fig t) := by
  unfold fromHeatmapLike
  try dsimp only
  repeat' first
    | exact tbok_pure _ _ _
    | (apply tbok_bind; intro v)
    | split

theorem fromPieLike_tbok (t : Trace) : TbOk (fromPieLike t) := by
  unfold fromPieLike
  try dsimp only
  repeat' first
    | exact tbok_pure _ _ _
    | (apply tbok_bind; intro v)
    | split

theorem fromOhlcLike_tbok (t : Trace) : TbOk (fromOhlcLike t) := by
  unfold fromOhlcLike
  try dsimp only
  repeat' first
    | exact tbok_pure _ _ _
    | (apply tbok_bind; intro v)
    | split

theorem fromWaterfall_tbok (t : Trace) : TbOk (fromWaterfall t) := by
  unfold fromWaterfall
  try dsimp only
  repeat' first
    | exact tbok_pure _ _ _
    | (apply tbok_bind; intro v)
    | split

theorem fromChoropleth_tbok (fig : Figure) (t : Trace) :
    TbOk (fromChoropleth fig t) := by
  unfold fromChoropleth
  try dsimp only
  repeat' first
    | exact tbok_pure _ _ _
    | (apply tbok_bind; intro v)
    | split

theorem fromBoxOrViolin_tbok (fig : Figure) (t : Trace) :
    TbOk (fromBoxOrViolin fig t) := by
  unfold fromBoxOrViolin
  try dsimp only
  repeat' first
    | exact tbok_pure _ _ _
    | (apply tbok_bind; intro v)
    | split

theorem fromCartesian_tbok (fig : Figure) (t : Trace) (fb : String)
    (opts : ExtractOptions) : TbOk (fromCartesian fig t fb opts) := by
  unfold fromCartesian
  try dsimp only
  repeat' first
    | exact tbok_pure _ _ _
    | (apply tbok_bind; intro v)
    | split

theorem fallbackDump_tbok (t : Trace) (typ : String) :
    ∀ r, fallbackDump t typ = some r → TbOk r := by
  intro r hr
  unfold fallbackDump at hr
  dsimp only at hr
  split at hr
  · cases hr
  · cases Option.some.inj hr
    apply tbok_bind
    intro cols
    exact tbok_pure _ _ _

theorem convertTrace_tbok (fig : Figure) (opts : ExtractOptions) (ord : Nat)
    (t : Trace) : ∀ r, convertTrace fig opts ord t = some r → TbOk r := by
  intro r hr
  unfold convertTrace at hr
  dsimp only at hr
  by_cases h1 : lowerCase (t.type.getD "") = "table"
  · rw [if_pos h1] at hr
    cases Option.some.inj hr
    exact fromTableTrace_tbok t
  rw [if_neg h1] at hr
  by_cases h2 : lowerCase (t.type.getD "") = "heatmap" ∨
      lowerCase (t.type.getD "") = "image" ∨ lowerCase (t.type.getD "") = "contour"
  · rw [if_pos h2] at hr
    cases Option.some.inj hr
    exact fromHeatmapLike_tbok fig t
  rw [if_neg h2] at hr
  by_cases h3 : lowerCase (t.type.getD "") = "pie" ∨
      lowerCase (t.type.getD "") = "sunburst" ∨
      lowerCase (t.type.getD "") = "treemap" ∨
      lowerCase (t.type.getD "") = "funnelarea"
  · rw [if_pos h3] at hr
    cases Option.some.inj hr
    exact fromPieLike_tbok t
  rw [if_neg h3] at hr
  by_cases h4 : lowerCase (t.type.getD "") = "ohlc" ∨
      lowerCase (t.type.getD "") = "candlestick"
  · rw [if_pos h4] at hr
    cases Option.some.inj hr
    exact fromOhlcLike_tbok t
  rw [if_neg h4] at hr
  by_cases h5 : lowerCase (t.type.getD "") = "waterfall"
  · rw [if_pos h5] at hr
    cases Option.some.inj hr
    exact fromWaterfall_tbok t
  rw [if_neg h5] at hr
  by_cases h6 : lowerCase (t.type.getD "") = "choropleth"
  · rw [if_pos h6] at hr
    cases Option.some.inj hr
    exact fromChoropleth_tbok fig t
  rw [if_neg h6] at hr
  by_cases h7 : lowerCase (t.type.getD "") = "box" ∨
      lowerCase (t.type.getD "") = "violin"
  · rw [if_pos h7] at hr
    cases Option.some.inj hr
    exact fromBoxOrViolin_tbok fig t
  rw [if_neg h7] at hr
  by_cases h8 : isCartesianTrace t = true
  · rw [if_pos h8] at hr
    cases Option.some.inj hr
    exact fromCartesian_tbok fig t _ opts
  rw [if_neg h8] at hr
  exact fallbackDump_tbok t _ r hr

theorem buildPerTrace_tbok (fig : Figure) (opts : ExtractOptions) :
    ∀ (l : List (Nat × Trace)) (ts : List DataTable),
      buildPerTrace fig opts l = .ok ts → ∀ tab ∈ ts, IsPadded tab
  | [], ts => by
    intro h tab htab
    cases h
    cases htab
  | (i, t) :: rest, ts => by
    intro h tab htab
    unfold buildPerTrace at h
    cases hc : convertTrace fig opts (i + 1) t with
    | none =>
      rw [hc] at h
      exact buildPerTrace_tbok fig opts rest ts h tab htab
    | some r =>
      rw [hc] at h
      cases r with
      | error e => cases h
      | ok tb =>
        cases hrest : buildPerTrace fig opts rest with
        | error e => rw [hrest] at h; cases h
        | ok ts' =>
          rw [hrest] at h
          simp only [Except.map] at h
          cases h
          rcases List.mem_cons.mp htab with rfl | htab
          · exact convertTrace_tbok fig opts (i + 1) t _ hc tab rfl
          · exact buildPerTrace_tbok fig opts rest ts' hrest tab htab

theorem maxColLen_map_eq (l : List DataColumn) (f : DataColumn → DataColumn)
    (hf : ∀ c, (f c).values.length = c.values.length) :
    maxColLen (l.map f) = maxColLen l := by
  induction l with
  | nil => rfl
  | cons a rest ih =>
    simp only [List.map_cons, maxColLen, List.foldr_cons] at ih ⊢
    rw [hf a, ih]

theorem coerceTable_isPadded (xName : String) (tab : DataTable)
    (h : IsPadded tab) : IsPadded (coerceTable xName tab) := by
  intro c hc
  unfold coerceTable at hc ⊢
  simp only at hc ⊢
  have hf : ∀ c0 : DataColumn,
      ((fun col => if col.name = xName ∨ lowerCase col.name = "x" then
          { col with values := col.values.map maybeDate }
        else col) c0).values.length = c0.values.length := by
    intro c0
    by_cases hcond : c0.name = xName ∨ lowerCase c0.name = "x"
    · simp [hcond]
    · simp [hcond]
  rw [maxColLen_map_eq tab.columns _ hf]
  obtain ⟨c0, hc0, rfl⟩ := List.mem_map.mp hc
  rw [hf c0]
  exact h c0 hc0

theorem mergeCartesianTables_isPadded (tables : List DataTable) (xName : String) :
    IsPadded (mergeCartesianTables tables xName) :=
  isPadded_makeTable _ _ _

/-- Claim C7: the padding invariant.  Every table produced by any
extraction path — per-trace conversion, the optional date-coercion
pass, and the optional cartesian merge (also when `mergeCartesianTables`
is called directly) — has all columns of identical length, equal to the
maximum value-count among the table's columns, gaps filled by `null`
at `makeTable` time. -/
theorem C7_padding_invariant :
    (∀ (fig : Figure) (opts : ExtractOptions) (ts : List DataTable)
        (tab : DataTable),
        extractTables fig opts = .ok ts → tab ∈ ts → IsPadded tab) ∧
    (∀ (tables : List DataTable) (xName : String),
        IsPadded (mergeCartesianTables tables xName)) := by
  refine ⟨?_, mergeCartesianTables_isPadded⟩
  intro fig opts ts tab h htab
  unfold extractTables at h
  cases hb : buildPerTrace fig opts fig.data.enum with
  | error e =>
    rw [hb] at h
    exact absurd h (by simp [Bind.bind, Except.bind])
  | ok per =>
    rw [hb, bind_ok_ex] at h
    have hper : ∀ tb ∈ per, IsPadded tb := buildPerTrace_tbok fig opts _ per hb
    dsimp only at h
    set p2 := (if opts.coerceDates.getD false then
        per.map (coerceTable (jsOr opts.xColumnName (jsOr (getXAxisTitle fig) "x")))
      else per) with hp2
    have hper2 : ∀ tb ∈ p2, IsPadded tb := by
      rw [hp2]
      split
      · intro tb htb
        obtain ⟨tb0, htb0, rfl⟩ := List.mem_map.mp htb
        exact coerceTable_isPadded _ _ (hper tb0 htb0)
      · exact hper
    split at h
    · simp only [pure, Except.pure, Except.ok.injEq] at h
      subst h
      exact hper2 tab htab
    · split at h
      · simp only [pure, Except.pure, Except.ok.injEq] at h
        subst h
        exact hper2 tab htab
      · simp only [pure, Except.pure, Except.ok.injEq] at h
        subst h
        rcases List.mem_cons.mp htab with rfl | htab2
        · exact mergeCartesianTables_isPadded _ _
        · exact hper2 tab (List.mem_of_mem_filter htab2)

/-- Witness for C7: the theorem applied to the one-pie-trace figure and
its extracted table. -/
theorem C7_witness : IsPadded pieTable :=
  C7_padding_invariant.1 figPieOnly {} [pieTable] pieTable (by decide)
    (List.mem_singleton.mpr rfl)

theorem convertTrace_isSome (fig : Figure) (opts : ExtractOptions) (ord : Nat)
    (t : Trace) (hrec : recognizedType t = true) :
    (convertTrace fig opts ord t).isSome = true := by
  unfold convertTrace
  dsimp only
  by_cases h1 : lowerCase (t.type.getD "") = "table"
  · rw [if_pos h1]; rfl
  rw [if_neg h1]
  by_cases h2 : lowerCase (t.type.getD "") = "heatmap" ∨
      lowerCase (t.type.getD "") = "image" ∨ lowerCase (t.type.getD "") = "contour"
  · rw [if_pos h2]; rfl
  rw [if_neg h2]
  by_cases h3 : lowerCase (t.type.getD "") = "pie" ∨
      lowerCase (t.type.getD "") = "sunburst" ∨
      lowerCase (t.type.getD "") = "treemap" ∨
      lowerCase (t.type.getD "") = "funnelarea"
  · rw [if_pos h3]; rfl
  rw [if_neg h3]
  by_cases h4 : lowerCase (t.type.getD "") = "ohlc" ∨
      lowerCase (t.type.getD "") = "candlestick"
  · rw [if_pos h4]; rfl
  rw [if_neg h4]
  by_cases h5 : lowerCase (t.type.getD "") = "waterfall"
  · rw [if_pos h5]; rfl
  rw [if_neg h5]
  by_cases h6 : lowerCase (t.type.getD "") = "choropleth"
  · rw [if_pos h6]; rfl
  rw [if_neg h6]
  by_cases h7 : lowerCase (t.type.getD "") = "box" ∨
      lowerCase (t.type.getD "") = "violin"
  · rw [if_pos h7]; rfl
  rw [if_neg h7]
  by_cases h8 : isCartesianTrace t = true
  · rw [if_pos h8]; rfl
  rw [if_neg h8]
  exfalso
  unfold recognizedType at hrec
  dsimp only at hrec
  simp only [List.any_eq_true, Bool.or_eq_true, decide_eq_true_eq] at hrec
  rcases hrec with ⟨sname, hs, heq⟩ | hcart
  · fin_cases hs <;> simp_all
  · exact h8 hcart

theorem buildPerTrace_complete (fig : Figure) (opts : ExtractOptions) :
    ∀ (l : List (Nat × Trace)) (ts : List DataTable),
      (∀ p ∈ l, recognizedType p.2 = true) →
      buildPerTrace fig opts l = .ok ts →
      ts.length = l.length ∧
        ∀ j p, l.get? j = some p →
          ∃ tb, convertTrace fig opts (p.1 + 1) p.2 = some (.ok tb) ∧
            ts.get? j = some tb
  | [], ts => by
    intro _ h
    cases h
    exact ⟨rfl, by intro j p hp; cases hp⟩
  | (i, t) :: rest, ts => by
    intro hrec h
    unfold buildPerTrace at h
    have hsome := convertTrace_isSome fig opts (i + 1) t (hrec (i, t) (by simp))
    cases hc : convertTrace fig opts (i + 1) t with
    | none => rw [hc] at hsome; cases hsome
    | some r =>
      rw [hc] at h
      cases r with
      | error e => cases h
      | ok tb =>
        cases hrest : buildPerTrace fig opts rest with
        | error e => rw [hrest] at h; cases h
        | ok ts' =>
          rw [hrest] at h
          simp only [Except.map] at h
          cases h
          obtain ⟨hlen, hcorr⟩ := buildPerTrace_complete fig opts rest ts'
            (fun p hp => hrec p (by simp [hp])) hrest
          refine ⟨by simp [hlen], ?_⟩
          intro j p hp
          cases j with
          | zero =>
            cases Option.some.inj hp
            exact ⟨tb, hc, rfl⟩
          | succ j' =>
            simp only [List.get?_cons_succ] at hp ⊢
            exact hcorr j' p hp

/-- Claim C5: dispatch completeness.  For a figure whose traces all
carry a recognized kind (a dispatched type tag — table, heatmap/image/
contour, pie-like, ohlc/candlestick, waterfall, choropleth, box/violin —
or a cartesian trace), `extractTables` without merging returns exactly
one table per trace, in trace order: the j-th output table is the
conversion of the j-th trace. -/
theorem C5_dispatch_completeness (fig : Figure) (opts : ExtractOptions)
    (ts : List DataTable)
    (hrec : ∀ t ∈ fig.data, recognizedType t = true)
    (hmerge : opts.mergeCartesian.getD false = false)
    (hcoerce : opts.coerceDates.getD false = false)
    (hok : extractTables fig opts = .ok ts) :
    ts.length = fig.data.length ∧
      ∀ j t, fig.data.get? j = some t →
        ∃ tb, convertTrace fig opts (j + 1) t = some (.ok tb) ∧
          ts.get? j = some tb := by
  unfold extractTables at hok
  cases hb : buildPerTrace fig opts fig.data.enum with
  | error e =>
    rw [hb] at hok
    exact absurd hok (by simp [Bind.bind, Except.bind])
  | ok per =>
    rw [hb, bind_ok_ex] at hok
    dsimp only at hok
    rw [hcoerce, hmerge] at hok
    simp only [Bool.false_eq_true, if_false, eq_self_iff_true, if_true, pure,
      Except.pure, Except.ok.injEq] at hok
    subst hok
    obtain ⟨hlen, hcorr⟩ := buildPerTrace_complete fig opts fig.data.enum per
      (fun p hp => hrec p.2 (List.snd_mem_of_mem_enum hp)) hb
    constructor
    · rw [hlen, List.enum_length]
    · intro j t ht
      have henum : fig.data.enum.get? j = some (j, t) := by
        rw [List.enum_get?, ht]
        rfl
      obtain ⟨tb, hc, hts⟩ := hcorr j (j, t) henum
      exact ⟨tb, hc, hts⟩

/-- Witness for C5: the theorem applied to the one-pie-trace figure. -/
theorem C5_witness :
    ([pieTable] : List DataTable).length = figPieOnly.data.length ∧
    ∃ tb, convertTrace figPieOnly {} 1 pieTrace = some (.ok tb) ∧
      ([pieTable] : List DataTable).get? 0 = some tb := by
  obtain ⟨hlen, hcorr⟩ := C5_dispatch_completeness figPieOnly {} [pieTable]
    (by intro t ht
        have hteq : t = pieTrace := by simpa [figPieOnly] using ht
        subst hteq
        decide)
    rfl rfl (by decide)
  exact ⟨hlen, hcorr 0 pieTrace rfl⟩

theorem jsOr_falsy (v : Option String) (d : String) (h : JsFalsyS v) :
    jsOr v d = d := by
  rcases h with rfl | rfl <;> simp [jsOr]

theorem padColumns_names (cols : List DataColumn) :
    (padColumnsToSameLength cols).map (·.name) = cols.map (·.name) := by
  unfold padColumnsToSameLength
  rw [List.map_map]
  apply List.map_congr_left
  intro c _
  by_cases h : c.values.length = maxColLen cols <;> simp [h]

theorem makeTable_names (title : String) (cols : List DataColumn)
    (meta : List (String × Value)) :
    (makeTable title cols meta).columns.map (·.name) = cols.map (·.name) := by
  simp only [makeTable]
  exact padColumns_names cols

theorem bind_eq_ok {e a b : Type} {x : Except e a} {f : a → Except e b} {v : b}
    (h : (x >>= f) = .ok v) : ∃ w, x = .ok w ∧ f w = .ok v := by
  cases x with
  | error err => exact absurd h (by simp [Bind.bind, Except.bind])
  | ok w => exact ⟨w, rfl, by simpa [Bind.bind, Except.bind] using h⟩

/-- Claim C3, amended: the generated-fallback ordinal is bumped once
per *trace of any kind* in figure order, so the trace at 0-based
position `i` is offered the fallback name `<pfx>_<i+1>`; an untyped
cartesian trace with a falsy name in a figure with a falsy y-axis title
does receive that fallback as its y-column name (second column).  In
particular an untitled cartesian trace preceded by a named or
non-cartesian trace receives ordinal 2, not 1. -/
theorem C3_amended (fig : Figure) (opts : ExtractOptions) (i : Nat) (t : Trace)
    (hi : fig.data.get? i = some t)
    (htype : t.type = none)
    (hcart : isCartesianTrace t = true)
    (hname : JsFalsyS t.name)
    (hytitle : JsFalsyS (getYAxisTitle fig)) :
    convertTrace fig opts (i + 1) t =
      some (fromCartesian fig t
        ((jsOr opts.unnamedYPrefix "y") ++ "_" ++ toString (i + 1)) opts) ∧
    ∀ tab, fromCartesian fig t
        ((jsOr opts.unnamedYPrefix "y") ++ "_" ++ toString (i + 1)) opts =
        .ok tab →
      tab.columns.map (·.name) =
        [jsOr opts.xColumnName (jsOr (getXAxisTitle fig) "x"),
         (jsOr opts.unnamedYPrefix "y") ++ "_" ++ toString (i + 1)] := by
  constructor
  · unfold convertTrace
    dsimp only
    rw [htype]
    rw [if_neg (by decide), if_neg (by decide), if_neg (by decide),
      if_neg (by decide), if_neg (by decide), if_neg (by decide),
      if_neg (by decide), if_pos hcart]
  · intro tab htab
    have hyname : jsOr t.name (jsOr (getYAxisTitle fig)
        ((jsOr opts.unnamedYPrefix "y") ++ "_" ++ toString (i + 1))) =
        (jsOr opts.unnamedYPrefix "y") ++ "_" ++ toString (i + 1) := by
      rw [jsOr_falsy _ _ hname, jsOr_falsy _ _ hytitle]
    unfold fromCartesian at htab
    dsimp only at htab
    obtain ⟨x, hx, htab⟩ := bind_eq_ok htab
    obtain ⟨y, hy, htab⟩ := bind_eq_ok htab
    split at htab
    · obtain ⟨groups, hg, htab⟩ := bind_eq_ok htab
      simp only [pure, Except.pure, Except.ok.injEq] at htab
      subst htab
      rw [makeTable_names]
      simp only [List.map_cons, List.map_nil]
      rw [hyname]
    · simp only [pure, Except.pure, Except.ok.injEq] at htab
      subst htab
      rw [makeTable_names]
      simp only [List.map_cons, List.map_nil]
      rw [hyname]

/-- Witness for C3's amended claim: the untitled cartesian trace at
position 1 of `figOrdinal` (0-based; preceded by the pie trace) is
dispatched with fallback ordinal 2 and its columns come out named
`x` and `y_2`. -/
theorem C3_witness :
    convertTrace figOrdinal {} 2 cartTrace1 =
      some (fromCartesian figOrdinal cartTrace1 "y_2" {}) ∧
    (⟨"cartesian", [⟨"x", [.num 1]⟩, ⟨"y_2", [.num 10]⟩],
      [("traceType", .str "cartesian")]⟩ : DataTable).columns.map (·.name) =
      ["x", "y_2"] :=
  ⟨(C3_amended figOrdinal {} 1 cartTrace1 rfl rfl (by decide) (Or.inl rfl)
      (Or.inl rfl)).1,
   (C3_amended figOrdinal {} 1 cartTrace1 rfl rfl (by decide) (Or.inl rfl)
      (Or.inl rfl)).2
     ⟨"cartesian", [⟨"x", [.num 1]⟩, ⟨"y_2", [.num 10]⟩],
      [("traceType", .str "cartesian")]⟩ (by decide)⟩
